import Mathlib

/-!
Verification development for the `@janiscommerce/sns` publish-side client.

The definitions below are a shallow embedding of `lib/sns-trigger.js` (the
current variant: `parseEvents`, `formatSNSEvent`, `handleEventSizeLimit`,
`formatBodyWithContentS3Path`, `formatAndUploadEventWithS3Content`,
`publishEvents`, `formatSnsResponse`, `getTopicNameFromArn`, `isValidSnsArn`,
`getContentS3Path`, `formatDate`, `parseMessageAttributes`,
`parseExtraProperties`), of `lib/helpers/pick-properties.js`
(`pickProperties`), and of the memoized `ParameterStore`
(`getParameterValue`, `getParameterArnFromRAM`).

Modelling conventions:
- JSON values are modelled by `Sns.Json`; numbers are restricted to integers
  (the claims never exercise float formatting).  `JSON.stringify` is modelled
  by `Sns.Json.stringify` with the standard JS quoting rules; `.length` of the
  produced JS string equals `String.length` here (all data involved is BMP).
- A JS object is an insertion-ordered association list; property assignment
  (`obj[k] = v`, object-literal spread) is `Sns.setProp`, which overwrites in
  place or appends, exactly as JS insertion order behaves.
- The `Message` field of a formatted entry is, in JS, the string
  `JSON.stringify(content)`.  We store the pre-image `Message : Json`; the JS
  string is `Message.stringify`, and `JSON.parse(Message)` is `Message`
  itself.  Serialization of a whole entry re-quotes that string, which the
  embedding reproduces faithfully.
- `hasOwnProperty`/bracket reads used by `pickProperties` are modelled for
  JSON objects (association lookup); index properties of strings/arrays are
  outside the modelled fragment.
- Network collaborators (RAM, SSM, S3 uploads, the SNS transport) are oracles
  bundled in `Sns.Env`.  The bounded-concurrency dispatcher
  (`async-with-concurrency`, whose source is not part of this snapshot) is
  modelled as in-order sequential execution of the batch worker, which is the
  canonical semantics of a concurrency-limited `Promise.all`; outcome
  collection is keyed per input batch.
- Nondeterministic inputs (the wall-clock date read by `new Date()` and the
  13-character random id) are passed in explicitly: `DateYMD` mirrors the
  `getFullYear`/`getMonth`/`getDate` readings, and batch formatting receives a
  generator `gen : Nat → DateYMD × String` indexed by the 1-based event index.
-/

namespace Sns

/-- JSON values (numbers restricted to integers). -/
inductive Json where
  | null : Json
  | bool (b : Bool) : Json
  | num (n : Int) : Json
  | str (s : String) : Json
  | arr (xs : List Json) : Json
  | obj (fields : List (String × Json)) : Json

/-- One character of JS `JSON.stringify` string quoting. -/
def escChar (c : Char) : List Char :=
  if c = '"' then ['\\', '"']
  else if c = '\\' then ['\\', '\\']
  else if c.toNat = 8 then ['\\', 'b']
  else if c.toNat = 9 then ['\\', 't']
  else if c.toNat = 10 then ['\\', 'n']
  else if c.toNat = 12 then ['\\', 'f']
  else if c.toNat = 13 then ['\\', 'r']
  else if c.toNat < 32 then
    ['\\', 'u', '0', '0',
      (Nat.digitChar (c.toNat / 16)), (Nat.digitChar (c.toNat % 16))]
  else [c]

def escList : List Char → List Char
  | [] => []
  | c :: cs => escChar c ++ escList cs

/-- JS string quoting as performed by `JSON.stringify` on a string value. -/
def quoteStr (s : String) : String :=
  "\"" ++ String.mk (escList s.data) ++ "\""

mutual

/-- `JSON.stringify` over the modelled JSON fragment. -/
def Json.stringify : Json → String
  | .null => "null"
  | .bool b => if b then "true" else "false"
  | .num n => toString n
  | .str s => quoteStr s
  | .arr xs => "[" ++ stringifyItems xs ++ "]"
  | .obj fields => "\x7b" ++ stringifyFields fields ++ "\x7d"

def stringifyItems : List Json → String
  | [] => ""
  | [x] => x.stringify
  | x :: y :: rest => x.stringify ++ "," ++ stringifyItems (y :: rest)

def stringifyFields : List (String × Json) → String
  | [] => ""
  | [kv] => quoteStr kv.1 ++ ":" ++ kv.2.stringify
  | kv :: f :: rest => quoteStr kv.1 ++ ":" ++ kv.2.stringify ++ "," ++ stringifyFields (f :: rest)

end

/-- First-match association lookup, the model of reading a JS object property. -/
def lookupProp {α : Type} (fields : List (String × α)) (key : String) : Option α :=
  match fields with
  | [] => none
  | kv :: rest => if kv.1 = key then some kv.2 else lookupProp rest key

/-- JS property assignment `obj[key] = v`: overwrite in place or append. -/
def setProp {α : Type} (fields : List (String × α)) (key : String) (v : α) :
    List (String × α) :=
  match fields with
  | [] => [(key, v)]
  | kv :: rest => if kv.1 = key then (key, v) :: rest else kv :: setProp rest key v

/-- Reading an own property of a parsed JSON value (object fragment). -/
def Json.getProp : Json → String → Option Json
  | .obj fields, key => lookupProp fields key
  | _, _ => none

/-- Embedding of `helpers/pick-properties.js`: copy, in `keys` order, every
key that is an own property of `object`, with its value. -/
def pickProperties (object : Json) (keys : List String) : List (String × Json) :=
  keys.foldl (fun result key =>
    match object.getProp key with
    | some v => setProp result key v
    | none => result) []

/-- Error object of `lib/sns-trigger-error.js` (code plus message). -/
structure SnsTriggerError where
  message : String
  code : String
deriving DecidableEq, Repr

def codeINVALID_SNS_ARN : String := "INVALID_SNS_ARN"
def codeRAM_ERROR : String := "RAM_ERROR"
def codeSSM_ERROR : String := "SSM_ERROR"
def codeS3_ERROR : String := "S3_ERROR"

/-- A user-supplied message attribute value: a string or an array of strings
(the two value shapes the package documents and serializes distinctly). -/
inductive AttrVal where
  | str (s : String) : AttrVal
  | arr (vs : List String) : AttrVal
deriving DecidableEq, Repr

/-- Wire encoding of one message attribute. -/
structure MsgAttr where
  DataType : String
  StringValue : String
deriving DecidableEq, Repr

/-- The caller-facing event shape (`types/sns-trigger.d.ts`). -/
structure SNSEvent where
  content : Json
  attributes : Option (List (String × AttrVal)) := none
  subject : Option String := none
  messageDeduplicationId : Option String := none
  messageGroupId : Option String := none
  messageStructure : Option String := none
  payloadFixedProperties : Option (List String) := none

/-- Transient offload metadata carried by a formatted entry. -/
structure ExtraProps where
  payloadFixedProperties : Option (List String)
  contentS3Path : String

/-- A formatted publish entry (the mutable working structure built by
`formatSNSEvent`), including the transient `extraProperties` and the
`limitExceeded` marker set by `handleEventSizeLimit`. -/
structure ParsedEvent where
  Id : Option String
  Message : Json
  MessageAttributes : List (String × MsgAttr)
  Subject : Option String
  MessageDeduplicationId : Option String
  MessageGroupId : Option String
  MessageStructure : Option String
  extraProperties : ExtraProps
  limitExceeded : Bool

/-- The wire entry actually handed to the transport: a formatted entry with
`limitExceeded` and `extraProperties` destructured away. -/
structure WireEntry where
  Id : Option String
  Message : Json
  MessageAttributes : List (String × MsgAttr)
  Subject : Option String
  MessageDeduplicationId : Option String
  MessageGroupId : Option String
  MessageStructure : Option String

def wireOfParsed (pe : ParsedEvent) : WireEntry :=
  { Id := pe.Id, Message := pe.Message, MessageAttributes := pe.MessageAttributes,
    Subject := pe.Subject, MessageDeduplicationId := pe.MessageDeduplicationId,
    MessageGroupId := pe.MessageGroupId, MessageStructure := pe.MessageStructure }

/-- One destination of the shared-parameter destination list. -/
structure Bucket where
  bucketName : String
  region : String
  isDefault : Bool := false
deriving DecidableEq, Repr

/-- Metadata of the destination that accepted an offloaded payload. -/
structure BucketInfo where
  bucketName : String
  region : String
deriving DecidableEq, Repr

/-- A transport-reported successful batch entry. -/
structure SuccessRaw where
  Id : String
  MessageId : String
  SequenceNumber : Option String := none
deriving DecidableEq, Repr

/-- A failed batch entry (transport-reported or synthesized on offload
failure). -/
structure FailedRaw where
  Id : Option String
  Code : String
  Message : String
deriving DecidableEq, Repr

/-- Result of one publish-batch call. -/
structure SnsOutcome where
  Successful : Option (List SuccessRaw) := none
  Failed : Option (List FailedRaw) := none
deriving DecidableEq, Repr

/-- Aggregated success entry of the final response. -/
structure SuccessOut where
  Id : String
  messageId : String
  sequenceNumber : Option String := none
deriving DecidableEq, Repr

/-- Aggregated response of `publishEvents`. -/
structure SnsResponse where
  successCount : Nat
  failedCount : Nat
  success : List SuccessOut
  failed : List FailedRaw
deriving DecidableEq, Repr

/-- External collaborators as oracles: the RAM resource listing, the SSM
parameter read (already JSON-parsed into the destination list), per-bucket
upload outcomes, and the publish-batch transport. -/
structure Env where
  ramResources : Except String (List String)
  ssmValue : String → Except String (List Bucket)
  uploadOk : Bucket → String → Bool
  transport : List WireEntry → SnsOutcome

/-- Calling context: the optional session tenant code and the deploying
service name (`process.env.JANIS_SERVICE_NAME`). -/
structure Ctx where
  sessionClientCode : Option String
  serviceName : String

/-- The readings `getFullYear()` / `getMonth()` (0-based) / `getDate()` of the
`Date` captured when a content path is built. -/
structure DateYMD where
  year : Nat
  monthIndex : Nat
  day : Nat

def SNS_MESSAGE_LIMIT_SIZE : Nat := 256 * 1024

def SNS_MAX_BATCH_SIZE : Nat := 10

/-- JS truthiness of an optional string value (`undefined` and `""` are
falsy). -/
def truthy : Option String → Bool
  | some s => s ≠ ""
  | none => false

def truthyOpt (o : Option String) : Option String :=
  if truthy o then o else none

def joinWith (sep : String) : List String → String
  | [] => ""
  | [x] => x
  | x :: y :: rest => x ++ sep ++ joinWith sep (y :: rest)

/-- `String(n).padStart(2, '0')`. -/
def padStart2 (s : String) : String :=
  if s.length ≥ 2 then s else String.mk (List.replicate (2 - s.length) '0') ++ s

/-- Embedding of `formatDate`: local `YYYY/MM/DD` with zero-padded month and
day (`getMonth()` is 0-based, hence the `+ 1`). -/
def formatDate (d : DateYMD) : String :=
  joinWith "/" [toString d.year, padStart2 (toString (d.monthIndex + 1)),
    padStart2 (toString d.day)]

/-- Embedding of `getContentS3Path`: the storage key for an offloaded
payload.  `rid` is the 13-character random id and `d` the captured date. -/
def getContentS3Path (ctx : Ctx) (topicName : String) (d : DateYMD) (rid : String) : String :=
  joinWith "/" ["topics",
    (match ctx.sessionClientCode with
     | some c => if c ≠ "" then c else "core"
     | none => "core"),
    ctx.serviceName, topicName, formatDate d, rid ++ ".json"]

/-- Embedding of `parseMessageAttributes`: always a `topicName` attribute,
a `janis-client` attribute when a truthy tenant code is in scope, then the
user attributes in entry order (arrays tagged `String.Array` and
JSON-serialized, scalars tagged `String`). -/
def parseMessageAttributes (ctx : Ctx) (attributes : Option (List (String × AttrVal)))
    (topicName : String) : List (String × MsgAttr) :=
  let parsedAttributes : List (String × MsgAttr) :=
    [("topicName", { DataType := "String", StringValue := topicName })]
  let parsedAttributes :=
    match ctx.sessionClientCode with
    | some c =>
      if c ≠ "" then
        setProp parsedAttributes "janis-client" { DataType := "String", StringValue := c }
      else parsedAttributes
    | none => parsedAttributes
  match attributes with
  | none => parsedAttributes
  | some attrs =>
    attrs.foldl (fun acc kv =>
      match kv.2 with
      | .str v => setProp acc kv.1 { DataType := "String", StringValue := v }
      | .arr vs =>
        setProp acc kv.1
          { DataType := "String.Array", StringValue := (Json.arr (vs.map .str)).stringify })
      parsedAttributes

/-- Embedding of `parseExtraProperties` (the path argument stands for the
freshly computed `getContentS3Path` result). -/
def parseExtraProperties (event : SNSEvent) (path : String) : ExtraProps :=
  { payloadFixedProperties := event.payloadFixedProperties, contentS3Path := path }

/-- Embedding of `formatSNSEvent`: one event to its formatted entry, with a
1-based string `Id` in batch mode (a 0 index is falsy in JS and yields no
`Id`). -/
def formatSNSEvent (ctx : Ctx) (event : SNSEvent) (topicName : String)
    (eventIndex : Option Nat) (d : DateYMD) (rid : String) : ParsedEvent :=
  let parsedAttributes := parseMessageAttributes ctx event.attributes topicName
  let extraProperties := parseExtraProperties event (getContentS3Path ctx topicName d rid)
  { Id := match eventIndex with
          | some i => if i = 0 then none else some (toString i)
          | none => none
    Message := event.content
    MessageAttributes := parsedAttributes
    Subject := truthyOpt event.subject
    MessageDeduplicationId := truthyOpt event.messageDeduplicationId
    MessageGroupId := truthyOpt event.messageGroupId
    MessageStructure := truthyOpt event.messageStructure
    extraProperties := extraProperties
    limitExceeded := false }

def msgAttrJson (a : MsgAttr) : Json :=
  .obj [("DataType", .str a.DataType), ("StringValue", .str a.StringValue)]

def extraPropsJson (e : ExtraProps) : Json :=
  .obj ((match e.payloadFixedProperties with
         | some ks => [("payloadFixedProperties", Json.arr (ks.map .str))]
         | none => []) ++ [("contentS3Path", .str e.contentS3Path)])

def optField (k : String) (o : Option String) : List (String × Json) :=
  match o with
  | some s => [(k, .str s)]
  | none => []

/-- The JSON value `JSON.stringify` sees when a formatted entry is
serialized for its size computation (insertion order of `formatSNSEvent`;
the JS `Message` string is the serialization of the stored content). -/
def parsedEventJson (pe : ParsedEvent) : Json :=
  .obj (optField "Id" pe.Id
    ++ [("Message", .str pe.Message.stringify),
        ("MessageAttributes", .obj (pe.MessageAttributes.map (fun kv => (kv.1, msgAttrJson kv.2))))]
    ++ optField "Subject" pe.Subject
    ++ optField "MessageDeduplicationId" pe.MessageDeduplicationId
    ++ optField "MessageGroupId" pe.MessageGroupId
    ++ optField "MessageStructure" pe.MessageStructure
    ++ [("extraProperties", extraPropsJson pe.extraProperties)])

/-- `JSON.stringify(parsedEvent).length`. -/
def parsedEventSize (pe : ParsedEvent) : Nat :=
  (parsedEventJson pe).stringify.length

/-- Embedding of `formatBodyWithContentS3Path`: the offloaded message body,
a locator object (path plus, when known, destination name and region)
spread-merged with the picked fixed properties of the original content. -/
def formatBodyWithContentS3Path (parsedEvent : ParsedEvent)
    (payloadFixedProperties : Option (List String)) (contentS3Path : String)
    (bucketInfo : Option BucketInfo) : Json :=
  let contentS3Location : Json :=
    .obj ([("path", .str contentS3Path)] ++
      match bucketInfo with
      | some b => [("bucketName", .str b.bucketName), ("region", .str b.region)]
      | none => [])
  let base := [("contentS3Location", contentS3Location)]
  match payloadFixedProperties with
  | some keys =>
    if keys.length = 0 then Json.obj base
    else
      Json.obj ((pickProperties parsedEvent.Message keys).foldl
        (fun acc kv => setProp acc kv.1 kv.2) base)
  | none => Json.obj base

/-- Embedding of `handleEventSizeLimit`: over the ceiling, mark the entry and
report the estimated post-offload size (locator-only body plus the fixed 90
byte destination-metadata allowance). -/
def handleEventSizeLimit (parsedEvent : ParsedEvent) (sz : Nat) : ParsedEvent × Nat :=
  if sz > SNS_MESSAGE_LIMIT_SIZE then
    let contentFixed := formatBodyWithContentS3Path parsedEvent
      parsedEvent.extraProperties.payloadFixedProperties
      parsedEvent.extraProperties.contentS3Path none
    let estimatedBucketInfoSize := 90
    ({ parsedEvent with limitExceeded := true },
      contentFixed.stringify.length + estimatedBucketInfoSize)
  else (parsedEvent, sz)

def fifoSuffix : List Char := ['.', 'f', 'i', 'f', 'o']

/-- JS `arn.split(':')` over characters (an empty input yields one empty
part, as in JS). -/
def splitOnColon : List Char → List (List Char)
  | [] => [[]]
  | c :: cs =>
    if c = ':' then [] :: splitOnColon cs
    else
      match splitOnColon cs with
      | [] => [[c]]
      | p :: ps => (c :: p) :: ps

def isRegionChar (c : Char) : Bool := c.isAlphanum || c = '-'

/-- The `[a-zA-Z0-9]+(\.fifo)?` tail of the topic pattern. -/
def nameOk (name : List Char) : Bool :=
  let base := if fifoSuffix.isSuffixOf name then name.take (name.length - 5) else name
  !base.isEmpty && base.all Char.isAlphanum

/-- Structural parse of the SNS ARN pattern
`arn:aws:sns:[a-zA-Z0-9-]+:[0-9]\x7b12\x7d:[a-zA-Z0-9]+(\.fifo)?`; returns
region, account, bare topic name and the FIFO flag.  The character classes
exclude the colon, so the pattern language is exactly the colon-split
decomposition checked here. -/
def parseSnsArn (arn : String) : Option (String × String × String × Bool) :=
  match splitOnColon arn.data with
  | [p1, p2, p3, region, account, name] =>
    if p1 = "arn".data ∧ p2 = "aws".data ∧ p3 = "sns".data
        ∧ region ≠ [] ∧ region.all isRegionChar
        ∧ account.length = 12 ∧ account.all Char.isDigit
        ∧ nameOk name then
      if fifoSuffix.isSuffixOf name then
        some (String.mk region, String.mk account,
          String.mk (name.take (name.length - 5)), true)
      else
        some (String.mk region, String.mk account, String.mk name, false)
    else none
  | _ => none

/-- Embedding of `isValidSnsArn`. -/
def isValidSnsArn (arn : String) : Bool := (parseSnsArn arn).isSome

/-- Embedding of `getTopicNameFromArn`: validate, take the trailing colon
segment, strip a `.fifo` suffix. -/
def getTopicNameFromArn (snsArn : String) : Except SnsTriggerError String :=
  if isValidSnsArn snsArn then
    let arnParts := splitOnColon snsArn.data
    let snsTopic := arnParts.getLastD []
    if fifoSuffix.isSuffixOf snsTopic then
      .ok (String.mk (snsTopic.take (snsTopic.length - 5)))
    else
      .ok (String.mk snsTopic)
  else
    .error { message := "Invalid SNS ARN: " ++ snsArn, code := codeINVALID_SNS_ARN }

def enumFrom {α : Type} : Nat → List α → List (Nat × α)
  | _, [] => []
  | i, x :: xs => (i, x) :: enumFrom (i + 1) xs

/-- State of the batch-partitioning loop of `parseEvents`. -/
structure PartitionState where
  done : List (List ParsedEvent)
  cur : List ParsedEvent
  curSize : Nat

/-- The marked formatted entry and its estimated size for the event at
1-based index `i`. -/
def markedFormat (ctx : Ctx) (topicName : String) (gen : Nat → DateYMD × String)
    (i : Nat) (event : SNSEvent) : ParsedEvent × Nat :=
  let pe0 := formatSNSEvent ctx event topicName (some i) (gen i).1 (gen i).2
  handleEventSizeLimit pe0 (parsedEventSize pe0)

/-- One iteration of the `parseEvents` loop: open a new batch when adding the
entry would cross the byte ceiling or the current batch already holds 10
entries. -/
def parseEventsStep (ctx : Ctx) (topicName : String) (gen : Nat → DateYMD × String)
    (st : PartitionState) (iev : Nat × SNSEvent) : PartitionState :=
  let hs := markedFormat ctx topicName gen iev.1 iev.2
  if st.curSize + hs.2 > SNS_MESSAGE_LIMIT_SIZE ∨ st.cur.length = SNS_MAX_BATCH_SIZE then
    { done := st.done ++ [st.cur], cur := [hs.1], curSize := hs.2 }
  else
    { done := st.done, cur := st.cur ++ [hs.1], curSize := st.curSize + hs.2 }

/-- The batch-partitioning core of `parseEvents`, after the topic name has
been resolved. -/
def parseEventsOnTopic (ctx : Ctx) (events : List SNSEvent) (topicName : String)
    (gen : Nat → DateYMD × String) : List (List ParsedEvent) :=
  let st := (enumFrom 1 events).foldl (parseEventsStep ctx topicName gen)
    { done := [], cur := [], curSize := 0 }
  st.done ++ [st.cur]

/-- Embedding of `parseEvents`: resolve the topic name (throwing on an
invalid ARN), then partition. -/
def parseEvents (ctx : Ctx) (events : List SNSEvent) (topicArn : String)
    (gen : Nat → DateYMD × String) : Except SnsTriggerError (List (List ParsedEvent)) := do
  let topicName ← getTopicNameFromArn topicArn
  pure (parseEventsOnTopic ctx events topicName gen)

def parameterName : String := "/shared/internal-storage"

def listInfixOf (pat : List Char) : List Char → Bool
  | [] => pat.isEmpty
  | c :: tl => pat.isPrefixOf (c :: tl) || listInfixOf pat tl

/-- Embedding of `ParameterStore.getParameterArnFromRAM`: list the shared
resources, keep those whose ARN contains the parameter name, fail with a
`RAM_ERROR` when the listing fails or nothing matches. -/
def getParameterArnFromRAM (env : Env) : Except SnsTriggerError String :=
  match env.ramResources with
  | .error msg =>
    .error { message := "Resource Access Manager Error: " ++ msg, code := codeRAM_ERROR }
  | .ok resources =>
    match resources.filter (fun arn => listInfixOf parameterName.data arn.data) with
    | [] =>
      .error { message := "Resource Access Manager Error: Unable to find resources with parameter "
                ++ parameterName ++ " in the ARN", code := codeRAM_ERROR }
    | arn :: _ => .ok arn

/-- Embedding of `ParameterStore.getParameterValue`: resolve the parameter
ARN (RAM failures propagate unchanged), then read and parse it, mapping any
read failure to an `SSM_ERROR`. -/
def getParameterValue (env : Env) : Except SnsTriggerError (List Bucket) := do
  let parameterArn ← getParameterArnFromRAM env
  match env.ssmValue parameterArn with
  | .error msg =>
    .error { message := "Unable to get parameter with arn " ++ parameterArn ++ " - " ++ msg,
             code := codeSSM_ERROR }
  | .ok v => pure v

/-- Modelled from the spec: the current `S3Uploader.uploadContentS3Path` is
not part of this source snapshot (only an older resolve/reject variant is).
Per spec sections 4.5 and 6, it attempts the upload against the default
(first) destination, then the remaining destinations in list order, and
returns the successful destination's metadata, or nothing when every
destination fails. -/
def uploadContentS3Path (env : Env) (buckets : List Bucket) (contentS3Path : String) :
    Option BucketInfo :=
  match buckets with
  | [] => none
  | b :: rest =>
    if env.uploadOk b contentS3Path then some { bucketName := b.bucketName, region := b.region }
    else uploadContentS3Path env rest contentS3Path

/-- Embedding of `formatAndUploadEventWithS3Content`: resolve the destination
list (systemic errors propagate), upload, and either rewrite the entry body
to the locator-plus-fixed-properties shape or produce the per-entry
`S3_ERROR` failure. -/
def formatAndUploadEventWithS3Content (env : Env) (parsedEvent : ParsedEvent) :
    Except SnsTriggerError (WireEntry ⊕ FailedRaw) := do
  let bucketList ← getParameterValue env
  match uploadContentS3Path env bucketList parsedEvent.extraProperties.contentS3Path with
  | none =>
    pure (.inr { Id := parsedEvent.Id,
                 Code := codeS3_ERROR,
                 Message := "Failed to upload to all provided s3 buckets" })
  | some bucketInfo =>
    let snsFixedContent := formatBodyWithContentS3Path parsedEvent
      parsedEvent.extraProperties.payloadFixedProperties
      parsedEvent.extraProperties.contentS3Path (some bucketInfo)
    pure (.inl { wireOfParsed parsedEvent with Message := snsFixedContent })

/-- Sequencing of the offload promises awaited by `Promise.all`: the results
in order, or the first rejection. -/
def exceptMapM {epsilon alpha beta : Type} (f : alpha → Except epsilon beta) :
    List alpha → Except epsilon (List beta)
  | [] => .ok []
  | x :: xs => do
    let r ← f x
    let rs ← exceptMapM f xs
    pure (r :: rs)

/-- Embedding of the per-batch worker inside `publishEvents`: pass small
entries through, offload marked entries (a systemic lookup error rejects the
batch before its publish call), publish only when at least one entry
remains, and fold the offload failures into the call's failure list.  The
second component is the trace of publish-batch calls issued (at most one). -/
def processBatch (env : Env) (batch : List ParsedEvent) :
    Except SnsTriggerError SnsOutcome × List (List WireEntry) :=
  let formattedSnsBatch := (batch.filter (fun pe => !pe.limitExceeded)).map wireOfParsed
  let toUpload := batch.filter (fun pe => pe.limitExceeded)
  match exceptMapM (formatAndUploadEventWithS3Content env) toUpload with
  | .error e => (.error e, [])
  | .ok formattedSnsBatchEntries =>
    let s3Failed := formattedSnsBatchEntries.filterMap (fun r =>
      match r with
      | .inr e => some e
      | .inl _ => none)
    let uploaded := formattedSnsBatchEntries.filterMap (fun r =>
      match r with
      | .inl w => some w
      | .inr _ => none)
    let entries := formattedSnsBatch ++ uploaded
    if entries.length = 0 then
      (.ok { Successful := none, Failed := some s3Failed }, [])
    else
      let snsResponse := env.transport entries
      (.ok { snsResponse with Failed := some ((snsResponse.Failed.getD []) ++ s3Failed) },
        [entries])

/-- The bounded-concurrency dispatcher over the batches, modelled as in-order
sequential execution; the trace collects every publish-batch call issued
before the first rejection. -/
def processAll (env : Env) : List (List ParsedEvent) →
    Except SnsTriggerError (List SnsOutcome) × List (List WireEntry)
  | [] => (.ok [], [])
  | b :: bs =>
    match processBatch env b with
    | (.error e, calls) => (.error e, calls)
    | (.ok outcome, calls) =>
      match processAll env bs with
      | (.error e, more) => (.error e, calls ++ more)
      | (.ok outcomes, more) => (.ok (outcome :: outcomes), calls ++ more)

/-- Decimal reading of a numeric identifier string (the fragment of JS
`Number` exercised by the `1`-based entry identifiers). -/
def decNatAux : List Char → Nat → Option Nat
  | [], acc => some acc
  | c :: cs, acc => if c.isDigit then decNatAux cs (acc * 10 + (c.toNat - 48)) else none

def idNum (e : FailedRaw) : Nat :=
  (decNatAux (e.Id.getD "").data 0).getD 0

/-- Stable insertion of a failed entry into a list sorted by numeric
identifier. -/
def insertFailedById (x : FailedRaw) : List FailedRaw → List FailedRaw
  | [] => [x]
  | y :: ys => if idNum y < idNum x then y :: insertFailedById x ys else x :: y :: ys

/-- The `result.Failed.sort((a, b) => Number(a.Id) - Number(b.Id))` step: a
stable sort by ascending numeric identifier. -/
def sortFailedById (l : List FailedRaw) : List FailedRaw :=
  l.foldr insertFailedById []

def formatSuccessEntry (s : SuccessRaw) : SuccessOut :=
  { Id := s.Id, messageId := s.MessageId, sequenceNumber := truthyOpt s.SequenceNumber }

/-- One iteration of the aggregation loop of `formatSnsResponse`. -/
def formatSnsResponseStep (response : SnsResponse) (result : SnsOutcome) : SnsResponse :=
  let response :=
    match result.Successful with
    | some succ =>
      { response with
        successCount := response.successCount + succ.length,
        success := response.success ++ succ.map formatSuccessEntry }
    | none => response
  match result.Failed with
  | some f =>
    if f.length = 0 then response
    else
      { response with
        failedCount := response.failedCount + f.length,
        failed := response.failed ++ sortFailedById f }
  | none => response

/-- Embedding of `formatSnsResponse`: aggregate the per-batch outcomes in
order, sorting each batch's failed entries by numeric identifier before
appending them. -/
def formatSnsResponse (results : List SnsOutcome) : SnsResponse :=
  results.foldl formatSnsResponseStep
    { successCount := 0, failedCount := 0, success := [], failed := [] }

/-- Embedding of `publishEvents`: partition, dispatch every batch through the
worker, aggregate.  The second component is the trace of publish-batch calls
issued to the transport. -/
def publishEvents (ctx : Ctx) (env : Env) (topicArn : String) (events : List SNSEvent)
    (gen : Nat → DateYMD × String) :
    Except SnsTriggerError SnsResponse × List (List WireEntry) :=
  match parseEvents ctx events topicArn gen with
  | .error e => (.error e, [])
  | .ok parsedEvents =>
    match processAll env parsedEvents with
    | (.error e, calls) => (.error e, calls)
    | (.ok results, calls) => (.ok (formatSnsResponse results), calls)

end Sns

namespace Sns

/-! Association-list lemmas for the JS object model. -/

theorem lookupProp_setProp_self {α : Type} (l : List (String × α)) (k : String) (v : α) :
    lookupProp (setProp l k v) k = some v := by
  induction l with
  | nil => simp [setProp, lookupProp]
  | cons kv rest ih =>
    by_cases h : kv.1 = k
    · simp [setProp, h, lookupProp]
    · simp [setProp, h, lookupProp, ih]

theorem lookupProp_setProp_other {α : Type} (l : List (String × α)) (k k' : String) (v : α)
    (h : k' ≠ k) : lookupProp (setProp l k v) k' = lookupProp l k' := by
  induction l with
  | nil =>
    have hne : ¬ k = k' := fun he => h he.symm
    simp [setProp, lookupProp, hne]
  | cons kv rest ih =>
    have hne2 : ¬ k = k' := fun he => h he.symm
    by_cases hk : kv.1 = k
    · simp [setProp, hk, lookupProp, hne2]
    · by_cases hk' : kv.1 = k'
      · simp [setProp, hk, lookupProp, hk', h]
      · simp [setProp, hk, lookupProp, hk', ih]

theorem lookupProp_eq_none {α : Type} (l : List (String × α)) (k : String)
    (h : k ∉ l.map Prod.fst) : lookupProp l k = none := by
  induction l with
  | nil => simp [lookupProp]
  | cons kv rest ih =>
    simp only [List.map_cons, List.mem_cons] at h
    push_neg at h
    have hne : ¬ kv.1 = k := fun he => h.1 he.symm
    simp [lookupProp, hne, ih h.2]

theorem setProp_keys {α : Type} (l : List (String × α)) (k : String) (v : α) :
    (setProp l k v).map Prod.fst =
      if k ∈ l.map Prod.fst then l.map Prod.fst else l.map Prod.fst ++ [k] := by
  induction l with
  | nil => simp [setProp]
  | cons kv rest ih =>
    by_cases hk : kv.1 = k
    · simp [setProp, hk]
    · have hne : ¬ k = kv.1 := fun he => hk he.symm
      simp only [setProp, if_neg hk, List.map_cons, ih]
      by_cases hm : k ∈ rest.map Prod.fst
      · simp [hm, hne]
      · simp [hm, hne]

theorem setProp_keys_nodup {α : Type} (l : List (String × α)) (k : String) (v : α)
    (h : (l.map Prod.fst).Nodup) : ((setProp l k v).map Prod.fst).Nodup := by
  rw [setProp_keys]
  by_cases hm : k ∈ l.map Prod.fst
  · simpa [hm] using h
  · simpa [hm] using List.Nodup.append h (List.nodup_singleton k) (by simpa using hm)

/-! Length lemmas for the stringify model. -/

theorem escChar_length_pos (c : Char) : 1 ≤ (escChar c).length := by
  unfold escChar
  repeat' split
  all_goals simp

theorem escList_length_ge (l : List Char) : l.length ≤ (escList l).length := by
  induction l with
  | nil => simp [escList]
  | cons c cs ih =>
    have := escChar_length_pos c
    simp only [escList, List.length_append, List.length_cons]
    omega

theorem string_length_mk (l : List Char) : (String.mk l).length = l.length := rfl

theorem string_length_data (s : String) : s.length = s.data.length := rfl

theorem quoteStr_length (s : String) : (quoteStr s).length = (escList s.data).length + 2 := by
  have h1 : ("\"" : String).length = 1 := rfl
  simp only [quoteStr, String.length_append, string_length_mk, h1]
  omega

theorem quoteStr_length_ge (s : String) : s.length + 2 ≤ (quoteStr s).length := by
  rw [quoteStr_length, string_length_data]
  have := escList_length_ge s.data
  omega

theorem stringify_str (s : String) : (Json.str s).stringify = quoteStr s := by
  simp [Json.stringify]

theorem stringify_obj (fs : List (String × Json)) :
    (Json.obj fs).stringify = "\x7b" ++ stringifyFields fs ++ "\x7d" := by
  simp [Json.stringify]

theorem stringifyFields_ge (fs : List (String × Json)) (kv : String × Json) (h : kv ∈ fs) :
    (kv.2.stringify).length ≤ (stringifyFields fs).length := by
  induction fs with
  | nil => exact absurd h (List.not_mem_nil kv)
  | cons f rest ih =>
    cases rest with
    | nil =>
      rcases List.mem_singleton.mp h with rfl
      simp [stringifyFields, String.length_append]
    | cons g rest' =>
      rcases List.mem_cons.mp h with rfl | hmem
      · simp only [stringifyFields, String.length_append]
        omega
      · have := ih hmem
        simp only [stringifyFields, String.length_append]
        omega

theorem stringify_obj_ge (fs : List (String × Json)) (kv : String × Json) (h : kv ∈ fs) :
    (kv.2.stringify).length ≤ (Json.obj fs).stringify.length := by
  rw [stringify_obj]
  have := stringifyFields_ge fs kv h
  simp only [String.length_append]
  omega

/-- A string of `n` copies of the letter `x`, used to build concrete
oversized payloads. -/
def strN (n : Nat) : String := String.mk (List.replicate n 'x')

theorem escChar_x : escChar 'x' = ['x'] := by decide

theorem escList_replicate_x (n : Nat) :
    escList (List.replicate n 'x') = List.replicate n 'x' := by
  induction n with
  | zero => simp [escList]
  | succ m ih => simp [List.replicate_succ, escList, escChar_x, ih]

theorem strN_stringify_length (n : Nat) : (Json.str (strN n)).stringify.length = n + 2 := by
  rw [stringify_str, quoteStr_length]
  simp [strN, escList_replicate_x]

theorem parsedEventSize_ge_message (pe : ParsedEvent) :
    pe.Message.stringify.length + 2 ≤ parsedEventSize pe := by
  have hmem : ("Message", Json.str pe.Message.stringify) ∈
      (optField "Id" pe.Id
        ++ [("Message", Json.str pe.Message.stringify),
            ("MessageAttributes", Json.obj (pe.MessageAttributes.map (fun kv => (kv.1, msgAttrJson kv.2))))]
        ++ optField "Subject" pe.Subject
        ++ optField "MessageDeduplicationId" pe.MessageDeduplicationId
        ++ optField "MessageGroupId" pe.MessageGroupId
        ++ optField "MessageStructure" pe.MessageStructure
        ++ [("extraProperties", extraPropsJson pe.extraProperties)]) := by
    simp
  have h1 := stringify_obj_ge _ _ hmem
  have h2 := quoteStr_length_ge pe.Message.stringify
  rw [stringify_str] at h1
  calc pe.Message.stringify.length + 2 ≤ (quoteStr pe.Message.stringify).length := h2
    _ ≤ _ := h1

end Sns

namespace Sns

/-! Characterization of `pickProperties` and of object-literal spreading. -/

theorem pick_foldl_lookup (o : Json) (keys : List String) (acc : List (String × Json))
    (k : String) :
    lookupProp (keys.foldl (fun res key =>
      match o.getProp key with
      | some v => setProp res key v
      | none => res) acc) k =
    if k ∈ keys ∧ (o.getProp k).isSome then o.getProp k else lookupProp acc k := by
  induction keys generalizing acc with
  | nil => simp
  | cons key rest ih =>
    simp only [List.foldl_cons]
    by_cases hk : key = k
    · subst hk
      cases hgp : o.getProp key with
      | none => simp [hgp, ih, hgp]
      | some v =>
        simp only [hgp]
        rw [ih]
        by_cases hr : key ∈ rest
        · simp [hr, hgp]
        · simp [hr, hgp, lookupProp_setProp_self]
    · have hne : ¬ k = key := fun he => hk he.symm
      cases hgp : o.getProp key with
      | none =>
        simp only [hgp]
        rw [ih]
        simp [List.mem_cons, hne]
      | some v =>
        simp only [hgp]
        rw [ih]
        rw [lookupProp_setProp_other acc key k v (fun he => hk he.symm)]
        simp [List.mem_cons, hne]

theorem pickProperties_lookup (o : Json) (keys : List String) (k : String) :
    lookupProp (pickProperties o keys) k =
      if k ∈ keys ∧ (o.getProp k).isSome then o.getProp k else none := by
  rw [pickProperties, pick_foldl_lookup]
  simp [lookupProp]

theorem pick_foldl_keys_sub (o : Json) (keys : List String) (acc : List (String × Json))
    (k : String)
    (h : k ∈ (keys.foldl (fun res key =>
      match o.getProp key with
      | some v => setProp res key v
      | none => res) acc).map Prod.fst) :
    k ∈ acc.map Prod.fst ∨ k ∈ keys := by
  induction keys generalizing acc with
  | nil => exact .inl h
  | cons key rest ih =>
    simp only [List.foldl_cons] at h
    cases hgp : o.getProp key with
    | none =>
      rw [hgp] at h
      rcases ih _ h with h1 | h2
      · exact .inl h1
      · exact .inr (List.mem_cons_of_mem key h2)
    | some v =>
      rw [hgp] at h
      rcases ih _ h with h1 | h2
      · rw [setProp_keys] at h1
        by_cases hm : key ∈ acc.map Prod.fst
        · rw [if_pos hm] at h1
          exact .inl h1
        · rw [if_neg hm] at h1
          rcases List.mem_append.mp h1 with h3 | h3
          · exact .inl h3
          · rcases List.mem_singleton.mp h3 with rfl
            exact .inr (List.mem_cons_self _ _)
      · exact .inr (List.mem_cons_of_mem key h2)

theorem pickProperties_keys_sub (o : Json) (keys : List String) (k : String)
    (h : k ∈ (pickProperties o keys).map Prod.fst) : k ∈ keys := by
  rcases pick_foldl_keys_sub o keys [] k h with h1 | h2
  · simp at h1
  · exact h2

theorem pick_foldl_nodup (o : Json) (keys : List String) (acc : List (String × Json))
    (h : (acc.map Prod.fst).Nodup) :
    ((keys.foldl (fun res key =>
      match o.getProp key with
      | some v => setProp res key v
      | none => res) acc).map Prod.fst).Nodup := by
  induction keys generalizing acc with
  | nil => exact h
  | cons key rest ih =>
    simp only [List.foldl_cons]
    cases hgp : o.getProp key with
    | none => simpa [hgp] using ih _ h
    | some v =>
      simp only [hgp]
      exact ih _ (setProp_keys_nodup acc key v h)

theorem pickProperties_nodup (o : Json) (keys : List String) :
    ((pickProperties o keys).map Prod.fst).Nodup :=
  pick_foldl_nodup o keys [] (by simp)

theorem lookupProp_foldl_setProp {α : Type} (kvs : List (String × α))
    (acc : List (String × α)) (k : String) (h : (kvs.map Prod.fst).Nodup) :
    lookupProp (kvs.foldl (fun a kv => setProp a kv.1 kv.2) acc) k =
    match lookupProp kvs k with
    | some v => some v
    | none => lookupProp acc k := by
  induction kvs generalizing acc with
  | nil => simp [lookupProp]
  | cons kv rest ih =>
    simp only [List.map_cons, List.nodup_cons] at h
    simp only [List.foldl_cons]
    by_cases hk : kv.1 = k
    · subst hk
      have hnone : lookupProp rest kv.1 = none :=
        lookupProp_eq_none rest kv.1 h.1
      rw [ih _ h.2, hnone, lookupProp_setProp_self]
      simp [lookupProp]
    · rw [ih _ h.2, lookupProp_setProp_other acc kv.1 k kv.2 (fun he => hk he.symm)]
      simp [lookupProp, hk]

/-! Lemmas about the sort of failed entries. -/

theorem insertFailedById_perm (x : FailedRaw) (l : List FailedRaw) :
    (insertFailedById x l).Perm (x :: l) := by
  induction l with
  | nil => simp [insertFailedById]
  | cons y ys ih =>
    by_cases h : idNum y < idNum x
    · simp only [insertFailedById, if_pos h]
      exact List.Perm.trans (List.Perm.cons y ih) (List.Perm.swap x y ys)
    · simp [insertFailedById, if_neg h]

theorem sortFailedById_perm (l : List FailedRaw) : (sortFailedById l).Perm l := by
  induction l with
  | nil => simp [sortFailedById]
  | cons x xs ih =>
    have h1 : sortFailedById (x :: xs) = insertFailedById x (sortFailedById xs) := rfl
    rw [h1]
    exact List.Perm.trans (insertFailedById_perm x (sortFailedById xs)) (List.Perm.cons x ih)

theorem insertFailedById_pairwise (x : FailedRaw) (l : List FailedRaw)
    (h : l.Pairwise (fun a b => idNum a ≤ idNum b)) :
    (insertFailedById x l).Pairwise (fun a b => idNum a ≤ idNum b) := by
  induction l with
  | nil => simp [insertFailedById]
  | cons y ys ih =>
    rcases List.pairwise_cons.mp h with ⟨hy, hys⟩
    by_cases hlt : idNum y < idNum x
    · simp only [insertFailedById, if_pos hlt]
      rw [List.pairwise_cons]
      refine ⟨?_, ih hys⟩
      intro z hz
      have hz' := (insertFailedById_perm x ys).mem_iff.mp hz
      rcases List.mem_cons.mp hz' with rfl | hmem
      · omega
      · exact hy z hmem
    · simp only [insertFailedById, if_neg hlt]
      rw [List.pairwise_cons]
      refine ⟨?_, h⟩
      intro z hz
      rcases List.mem_cons.mp hz with rfl | hmem
      · omega
      · have := hy z hmem
        omega

theorem sortFailedById_pairwise (l : List FailedRaw) :
    (sortFailedById l).Pairwise (fun a b => idNum a ≤ idNum b) := by
  induction l with
  | nil => simp [sortFailedById]
  | cons x xs ih => exact insertFailedById_pairwise x (sortFailedById xs) ih

end Sns

namespace Sns

/-! The batch-partitioning invariant of `parseEvents`. -/

/-- The estimated size charged by the partitioner for an entry: its formatted
size, shrunk to the estimated post-offload size when over the ceiling. -/
def estSize (pe : ParsedEvent) : Nat :=
  (handleEventSizeLimit pe (parsedEventSize pe)).2

/-- Estimated total size of a batch. -/
def batchEstSize (b : List ParsedEvent) : Nat := (b.map estSize).sum

theorem parsedEventSize_mark (pe : ParsedEvent) :
    parsedEventSize { pe with limitExceeded := true } = parsedEventSize pe := rfl

theorem handleEventSizeLimit_le (pe : ParsedEvent) (sz : Nat)
    (h : ¬ sz > SNS_MESSAGE_LIMIT_SIZE) : handleEventSizeLimit pe sz = (pe, sz) := by
  simp [handleEventSizeLimit, h]

theorem handleEventSizeLimit_gt (pe : ParsedEvent) (sz : Nat)
    (h : sz > SNS_MESSAGE_LIMIT_SIZE) :
    handleEventSizeLimit pe sz =
      ({ pe with limitExceeded := true },
        (formatBodyWithContentS3Path pe pe.extraProperties.payloadFixedProperties
          pe.extraProperties.contentS3Path none).stringify.length + 90) := by
  simp [handleEventSizeLimit, h]

/-- Re-running the size estimation on an already-marked entry reproduces the
size the partitioner charged for it. -/
theorem estSize_markedFormat (ctx : Ctx) (topicName : String) (gen : Nat → DateYMD × String)
    (i : Nat) (event : SNSEvent) :
    estSize (markedFormat ctx topicName gen i event).1 =
      (markedFormat ctx topicName gen i event).2 := by
  unfold markedFormat
  by_cases h : parsedEventSize (formatSNSEvent ctx event topicName (some i) (gen i).1 (gen i).2)
      > SNS_MESSAGE_LIMIT_SIZE
  · rw [handleEventSizeLimit_gt _ _ h]
    unfold estSize
    rw [parsedEventSize_mark, handleEventSizeLimit_gt _ _ h]
    rfl
  · rw [handleEventSizeLimit_le _ _ h]
    unfold estSize
    rw [handleEventSizeLimit_le _ _ h]

/-- Invariant carried through the partitioning fold. -/
def goodState (st : PartitionState) : Prop :=
  (∀ b ∈ st.done, b.length ≤ SNS_MAX_BATCH_SIZE ∧
    (batchEstSize b ≤ SNS_MESSAGE_LIMIT_SIZE ∨
      ∃ pe, b = [pe] ∧ SNS_MESSAGE_LIMIT_SIZE < estSize pe)) ∧
  st.cur.length ≤ SNS_MAX_BATCH_SIZE ∧
  st.curSize = batchEstSize st.cur ∧
  (st.curSize ≤ SNS_MESSAGE_LIMIT_SIZE ∨
    ∃ pe, st.cur = [pe] ∧ SNS_MESSAGE_LIMIT_SIZE < estSize pe)

theorem parseEventsStep_good (ctx : Ctx) (topicName : String) (gen : Nat → DateYMD × String)
    (st : PartitionState) (iev : Nat × SNSEvent) (h : goodState st) :
    goodState (parseEventsStep ctx topicName gen st iev) := by
  obtain ⟨hdone, hlen, hsize, hbound⟩ := h
  unfold parseEventsStep
  by_cases hcond : st.curSize + (markedFormat ctx topicName gen iev.1 iev.2).2
      > SNS_MESSAGE_LIMIT_SIZE ∨ st.cur.length = SNS_MAX_BATCH_SIZE
  · rw [if_pos hcond]
    refine ⟨?_, ?_, ?_, ?_⟩
    · intro b hb
      rcases List.mem_append.mp hb with h1 | h2
      · exact hdone b h1
      · rcases List.mem_singleton.mp h2 with rfl
        refine ⟨hlen, ?_⟩
        rw [← hsize]
        exact hbound
    · simp [SNS_MAX_BATCH_SIZE]
    · simp [batchEstSize, estSize_markedFormat]
    · by_cases hbig :
        (markedFormat ctx topicName gen iev.1 iev.2).2 ≤ SNS_MESSAGE_LIMIT_SIZE
      · exact .inl hbig
      · refine .inr ⟨(markedFormat ctx topicName gen iev.1 iev.2).1, rfl, ?_⟩
        rw [estSize_markedFormat]
        omega
  · rw [if_neg hcond]
    push_neg at hcond
    refine ⟨hdone, ?_, ?_, .inl hcond.1⟩
    · have h10 : SNS_MAX_BATCH_SIZE = 10 := rfl
      rw [List.length_append, List.length_singleton]
      omega
    · simp [batchEstSize, List.map_append, List.sum_append, estSize_markedFormat, hsize]

/-- The entries accumulated so far, in order. -/
def joinedState (st : PartitionState) : List ParsedEvent := st.done.join ++ st.cur

theorem parseEventsStep_joined (ctx : Ctx) (topicName : String) (gen : Nat → DateYMD × String)
    (st : PartitionState) (iev : Nat × SNSEvent) :
    joinedState (parseEventsStep ctx topicName gen st iev) =
      joinedState st ++ [(markedFormat ctx topicName gen iev.1 iev.2).1] := by
  unfold parseEventsStep joinedState
  by_cases hcond : st.curSize + (markedFormat ctx topicName gen iev.1 iev.2).2
      > SNS_MESSAGE_LIMIT_SIZE ∨ st.cur.length = SNS_MAX_BATCH_SIZE
  · rw [if_pos hcond]
    simp [List.join_append]
  · rw [if_neg hcond]
    simp [List.append_assoc]

theorem foldl_parseEventsStep_good (ctx : Ctx) (topicName : String)
    (gen : Nat → DateYMD × String) (l : List (Nat × SNSEvent)) (st : PartitionState)
    (h : goodState st) :
    goodState (l.foldl (parseEventsStep ctx topicName gen) st) := by
  induction l generalizing st with
  | nil => exact h
  | cons ie rest ih =>
    rw [List.foldl_cons]
    exact ih _ (parseEventsStep_good ctx topicName gen st ie h)

theorem foldl_parseEventsStep_joined (ctx : Ctx) (topicName : String)
    (gen : Nat → DateYMD × String) (l : List (Nat × SNSEvent)) (st : PartitionState) :
    joinedState (l.foldl (parseEventsStep ctx topicName gen) st) =
      joinedState st ++ l.map (fun ie => (markedFormat ctx topicName gen ie.1 ie.2).1) := by
  induction l generalizing st with
  | nil => simp
  | cons ie rest ih =>
    rw [List.foldl_cons, ih, parseEventsStep_joined]
    simp [List.append_assoc]

theorem initState_good : goodState { done := [], cur := [], curSize := 0 } := by
  refine ⟨by simp, by simp, by simp [batchEstSize], .inl (by simp [SNS_MESSAGE_LIMIT_SIZE])⟩

theorem parseEventsOnTopic_good (ctx : Ctx) (events : List SNSEvent) (topicName : String)
    (gen : Nat → DateYMD × String) (b : List ParsedEvent)
    (hb : b ∈ parseEventsOnTopic ctx events topicName gen) :
    b.length ≤ SNS_MAX_BATCH_SIZE ∧
    (batchEstSize b ≤ SNS_MESSAGE_LIMIT_SIZE ∨
      ∃ pe, b = [pe] ∧ SNS_MESSAGE_LIMIT_SIZE < estSize pe) := by
  have hg := foldl_parseEventsStep_good ctx topicName gen (enumFrom 1 events)
    { done := [], cur := [], curSize := 0 } initState_good
  obtain ⟨hdone, hlen, hsize, hbound⟩ := hg
  simp only [parseEventsOnTopic] at hb
  rcases List.mem_append.mp hb with h1 | h2
  · exact hdone b h1
  · rcases List.mem_singleton.mp h2 with rfl
    refine ⟨hlen, ?_⟩
    rw [← hsize]
    exact hbound

theorem parseEventsOnTopic_join (ctx : Ctx) (events : List SNSEvent) (topicName : String)
    (gen : Nat → DateYMD × String) :
    (parseEventsOnTopic ctx events topicName gen).join =
      (enumFrom 1 events).map (fun ie => (markedFormat ctx topicName gen ie.1 ie.2).1) := by
  have hj := foldl_parseEventsStep_joined ctx topicName gen (enumFrom 1 events)
    { done := [], cur := [], curSize := 0 }
  simp only [parseEventsOnTopic, List.join]
  rw [List.flatten_append]
  simpa [joinedState, List.join] using hj

end Sns

namespace Sns

/-! Split/join machinery for the ARN pattern. -/

theorem string_mk_data (s : String) : String.mk s.data = s := rfl

theorem string_data_inj {s t : String} (h : s.data = t.data) : s = t :=
  congrArg String.mk h

def joinColon : List (List Char) → List Char
  | [] => []
  | [p] => p
  | p :: q :: rest => p ++ ':' :: joinColon (q :: rest)

theorem splitOnColon_ne_nil (l : List Char) : splitOnColon l ≠ [] := by
  induction l with
  | nil => simp [splitOnColon]
  | cons c cs ih =>
    by_cases h : c = ':'
    · simp [splitOnColon, h]
    · simp only [splitOnColon, if_neg h]
      cases hs : splitOnColon cs with
      | nil => simp
      | cons p ps => simp

theorem splitOnColon_no_colon (l : List Char) (h : ':' ∉ l) : splitOnColon l = [l] := by
  induction l with
  | nil => rfl
  | cons c cs ih =>
    simp only [List.mem_cons] at h
    push_neg at h
    have hc : ¬ c = ':' := fun he => h.1 he.symm
    simp only [splitOnColon, if_neg hc, ih h.2]

theorem splitOnColon_append (l1 rest : List Char) (h : ':' ∉ l1) :
    splitOnColon (l1 ++ ':' :: rest) = l1 :: splitOnColon rest := by
  induction l1 with
  | nil => simp [splitOnColon]
  | cons c cs ih =>
    simp only [List.mem_cons] at h
    push_neg at h
    have hc : ¬ c = ':' := fun he => h.1 he.symm
    simp only [List.cons_append, splitOnColon, if_neg hc, List.append_eq]
    rw [ih h.2]

theorem splitOnColon_parts (l : List Char) : ∀ p ∈ splitOnColon l, ':' ∉ p := by
  induction l with
  | nil =>
    intro p hp
    simp only [splitOnColon, List.mem_singleton] at hp
    simp [hp]
  | cons c cs ih =>
    by_cases h : c = ':'
    · simp only [splitOnColon, if_pos h]
      intro p hp
      rcases List.mem_cons.mp hp with rfl | hmem
      · simp
      · exact ih p hmem
    · simp only [splitOnColon, if_neg h]
      cases hs : splitOnColon cs with
      | nil => exact absurd hs (splitOnColon_ne_nil cs)
      | cons q ps =>
        intro p hp
        rcases List.mem_cons.mp hp with rfl | hmem
        · intro hcol
          rcases List.mem_cons.mp hcol with he | hq
          · exact h he.symm
          · exact ih q (hs ▸ List.mem_cons_self q ps) hq
        · exact ih p (hs ▸ List.mem_cons_of_mem q hmem)

theorem joinColon_splitOnColon (l : List Char) : joinColon (splitOnColon l) = l := by
  induction l with
  | nil => rfl
  | cons c cs ih =>
    by_cases h : c = ':'
    · subst h
      simp only [splitOnColon, if_pos rfl]
      cases hs : splitOnColon cs with
      | nil => exact absurd hs (splitOnColon_ne_nil cs)
      | cons p ps =>
        rw [hs] at ih
        simp [joinColon, ih]
    · simp only [splitOnColon, if_neg h]
      cases hs : splitOnColon cs with
      | nil => exact absurd hs (splitOnColon_ne_nil cs)
      | cons p ps =>
        rw [hs] at ih
        cases ps with
        | nil =>
          simp only [joinColon] at ih ⊢
          rw [ih]
        | cons q ps' =>
          simp only [joinColon] at ih ⊢
          rw [List.cons_append, ih]

/-- The strings of the ARN pattern, parameterized by its variable parts. -/
def composeSnsArn (region account name : String) (fifo : Bool) : String :=
  "arn:aws:sns:" ++ region ++ ":" ++ account ++ ":" ++ name ++
    (if fifo then ".fifo" else "")

theorem all_no_colon (l : List Char) (p : Char → Bool) (h : l.all p) (hp : p ':' = false) :
    ':' ∉ l := by
  intro hc
  have := List.all_eq_true.mp h _ hc
  rw [hp] at this
  exact Bool.noConfusion this

theorem isSuffixOf_append_self (l1 l2 : List Char) : l1.isSuffixOf (l2 ++ l1) = true := by
  rw [List.isSuffixOf_iff_suffix]
  exact List.suffix_append l2 l1

theorem take_append_left (l1 l2 : List Char) :
    (l1 ++ l2).take ((l1 ++ l2).length - l2.length) = l1 := by
  have h : (l1 ++ l2).length - l2.length = l1.length := by
    simp [List.length_append]
  rw [h]
  exact List.take_left l1 l2

theorem alnum_not_fifoSuffix (l : List Char) (h : l.all Char.isAlphanum) :
    fifoSuffix.isSuffixOf l = false := by
  by_contra hne
  have hsuf : fifoSuffix.isSuffixOf l = true := by
    cases hb : fifoSuffix.isSuffixOf l
    · exact absurd hb hne
    · rfl
  rw [List.isSuffixOf_iff_suffix] at hsuf
  obtain ⟨pre, hpre⟩ := hsuf
  have hdot : '.' ∈ l := by
    rw [← hpre]
    exact List.mem_append.mpr (.inr (by simp [fifoSuffix]))
  have := List.all_eq_true.mp h _ hdot
  simp [Char.isAlphanum, Char.isAlpha, Char.isDigit, Char.isUpper, Char.isLower] at this

theorem data_composeSnsArn (region account name : String) (fifo : Bool) :
    (composeSnsArn region account name fifo).data =
      "arn:aws:sns:".data ++ region.data ++ ':' ::
        (account.data ++ ':' :: (name.data ++ (if fifo then ".fifo" else "").data)) := by
  cases fifo <;>
    simp [composeSnsArn, String.data_append, List.append_assoc]

theorem splitOnColon_composeSnsArn (region account name : String) (fifo : Bool)
    (hr : ':' ∉ region.data) (ha : ':' ∉ account.data) (hn : ':' ∉ name.data)
    (hf : ':' ∉ (if fifo then (".fifo" : String) else "").data) :
    splitOnColon (composeSnsArn region account name fifo).data =
      ["arn".data, "aws".data, "sns".data, region.data, account.data,
        name.data ++ (if fifo then (".fifo" : String) else "").data] := by
  rw [data_composeSnsArn]
  have harn : ("arn:aws:sns:" : String).data ++ region.data ++ ':' ::
      (account.data ++ ':' :: (name.data ++ (if fifo then (".fifo" : String) else "").data)) =
      "arn".data ++ ':' :: ("aws".data ++ ':' :: ("sns".data ++ ':' :: (region.data ++ ':' ::
        (account.data ++ ':' :: (name.data ++ (if fifo then (".fifo" : String) else "").data))))) := by
    simp [List.append_assoc]
  rw [harn]
  rw [splitOnColon_append _ _ (by decide)]
  rw [splitOnColon_append _ _ (by decide)]
  rw [splitOnColon_append _ _ (by decide)]
  rw [splitOnColon_append _ _ hr]
  rw [splitOnColon_append _ _ ha]
  rw [splitOnColon_no_colon _ (by
    intro hc
    rcases List.mem_append.mp hc with h1 | h2
    · exact hn h1
    · exact hf h2)]

end Sns

namespace Sns

/-- Constraints on the variable parts of the ARN pattern. -/
def arnPartsOk (region account name : String) : Prop :=
  region.data ≠ [] ∧ region.data.all isRegionChar ∧
  account.data.length = 12 ∧ account.data.all Char.isDigit ∧
  name.data ≠ [] ∧ name.data.all Char.isAlphanum

theorem fifoSuffix_eq : (".fifo" : String).data = fifoSuffix := by decide

theorem nameOk_no_fifo (l : List Char) (h1 : l ≠ []) (h2 : l.all Char.isAlphanum) :
    nameOk l = true := by
  unfold nameOk
  rw [alnum_not_fifoSuffix l h2]
  simp [h1, h2]

theorem take_sub_five (l : List Char) :
    (l ++ fifoSuffix).take ((l ++ fifoSuffix).length - 5) = l := by
  have h5 : (5 : Nat) = fifoSuffix.length := by decide
  rw [h5]
  exact take_append_left l fifoSuffix

theorem nameOk_fifo (l : List Char) (h1 : l ≠ []) (h2 : l.all Char.isAlphanum) :
    nameOk (l ++ fifoSuffix) = true := by
  unfold nameOk
  rw [isSuffixOf_append_self]
  simp only [if_true]
  rw [take_sub_five]
  simp [h1, h2]


theorem parseSnsArn_composed (region account name : String) (fifo : Bool)
    (h : arnPartsOk region account name) :
    parseSnsArn (composeSnsArn region account name fifo) =
      some (region, account, name, fifo) := by
  obtain ⟨hr, hrall, halen, hadig, hn, hnall⟩ := h
  have hrc : ':' ∉ region.data := all_no_colon _ _ hrall (by decide)
  have hac : ':' ∉ account.data := all_no_colon _ _ hadig (by decide)
  have hnc : ':' ∉ name.data := all_no_colon _ _ hnall (by decide)
  cases fifo
  case false =>
    have hsplit := splitOnColon_composeSnsArn region account name false hrc hac hnc (by decide)
    have hemp : (if (false : Bool) = true then (".fifo" : String) else "").data = [] := rfl
    rw [hemp, List.append_nil] at hsplit
    have hnodot : fifoSuffix.isSuffixOf name.data = false := alnum_not_fifoSuffix _ hnall
    unfold parseSnsArn
    rw [hsplit]
    dsimp only
    rw [if_pos ⟨rfl, rfl, rfl, hr, hrall, halen, hadig, nameOk_no_fifo name.data hn hnall⟩]
    rw [hnodot]
    simp [string_mk_data]
  case true =>
    have hsplit := splitOnColon_composeSnsArn region account name true hrc hac hnc (by decide)
    have hfif : (if (true : Bool) = true then (".fifo" : String) else "").data = fifoSuffix := rfl
    rw [hfif] at hsplit
    unfold parseSnsArn
    rw [hsplit]
    dsimp only
    rw [if_pos ⟨rfl, rfl, rfl, hr, hrall, halen, hadig, nameOk_fifo name.data hn hnall⟩]
    rw [isSuffixOf_append_self]
    simp only [if_true]
    rw [take_sub_five]

theorem isValidSnsArn_composed (region account name : String) (fifo : Bool)
    (h : arnPartsOk region account name) :
    isValidSnsArn (composeSnsArn region account name fifo) = true := by
  unfold isValidSnsArn
  rw [parseSnsArn_composed region account name fifo h]
  rfl

theorem getTopicNameFromArn_composed (region account name : String) (fifo : Bool)
    (h : arnPartsOk region account name) :
    getTopicNameFromArn (composeSnsArn region account name fifo) = .ok name := by
  obtain ⟨hr, hrall, halen, hadig, hn, hnall⟩ := h
  have hrc : ':' ∉ region.data := all_no_colon _ _ hrall (by decide)
  have hac : ':' ∉ account.data := all_no_colon _ _ hadig (by decide)
  have hnc : ':' ∉ name.data := all_no_colon _ _ hnall (by decide)
  have hvalid := isValidSnsArn_composed region account name fifo
    ⟨hr, hrall, halen, hadig, hn, hnall⟩
  cases fifo
  case false =>
    have hsplit := splitOnColon_composeSnsArn region account name false hrc hac hnc (by decide)
    have hemp : (if (false : Bool) = true then (".fifo" : String) else "").data = [] := rfl
    rw [hemp, List.append_nil] at hsplit
    have hnodot : fifoSuffix.isSuffixOf name.data = false := alnum_not_fifoSuffix _ hnall
    unfold getTopicNameFromArn
    rw [hvalid]
    simp only [if_true]
    rw [hsplit]
    have hlast : List.getLastD ["arn".data, "aws".data, "sns".data, region.data,
        account.data, name.data] [] = name.data := rfl
    dsimp only
    rw [hlast, hnodot]
    simp [string_mk_data]
  case true =>
    have hsplit := splitOnColon_composeSnsArn region account name true hrc hac hnc (by decide)
    have hfif : (if (true : Bool) = true then (".fifo" : String) else "").data = fifoSuffix := rfl
    rw [hfif] at hsplit
    unfold getTopicNameFromArn
    rw [hvalid]
    simp only [if_true]
    rw [hsplit]
    have hlast : List.getLastD ["arn".data, "aws".data, "sns".data, region.data,
        account.data, name.data ++ fifoSuffix] [] = name.data ++ fifoSuffix := rfl
    dsimp only
    rw [hlast, isSuffixOf_append_self]
    simp only [if_true]
    rw [take_sub_five]

theorem getTopicNameFromArn_invalid (s : String) (h : isValidSnsArn s = false) :
    getTopicNameFromArn s =
      .error { message := "Invalid SNS ARN: " ++ s, code := codeINVALID_SNS_ARN } := by
  unfold getTopicNameFromArn
  rw [h]
  simp

end Sns


namespace Sns

theorem nameOk_elim_fifo (pre : List Char) (h : nameOk (pre ++ fifoSuffix) = true) :
    pre ≠ [] ∧ pre.all Char.isAlphanum = true := by
  unfold nameOk at h
  rw [isSuffixOf_append_self] at h
  simp only [if_true] at h
  rw [take_sub_five] at h
  simp only [Bool.and_eq_true] at h
  refine ⟨?_, h.2⟩
  intro hemp
  rw [hemp] at h
  simp at h

theorem nameOk_elim_nofifo (l : List Char) (hsuf : fifoSuffix.isSuffixOf l = false)
    (h : nameOk l = true) : l ≠ [] ∧ l.all Char.isAlphanum = true := by
  unfold nameOk at h
  rw [hsuf] at h
  simp only [Bool.false_eq_true, if_false, Bool.and_eq_true] at h
  refine ⟨?_, h.2⟩
  intro hemp
  rw [hemp] at h
  simp at h

theorem joinColon_six (p1 p2 p3 p4 p5 p6 : List Char) :
    joinColon [p1, p2, p3, p4, p5, p6] =
      p1 ++ ':' :: (p2 ++ ':' :: (p3 ++ ':' :: (p4 ++ ':' :: (p5 ++ ':' :: p6)))) := rfl

theorem parseSnsArn_sound (s : String) (region account name : String) (fifo : Bool)
    (h : parseSnsArn s = some (region, account, name, fifo)) :
    s = composeSnsArn region account name fifo ∧ arnPartsOk region account name := by
  unfold parseSnsArn at h
  cases hs0 : splitOnColon s.data with
  | nil => rw [hs0] at h; exact absurd h (by simp)
  | cons p1 t1 =>
  cases t1 with
  | nil => rw [hs0] at h; exact absurd h (by simp)
  | cons p2 t2 =>
  cases t2 with
  | nil => rw [hs0] at h; exact absurd h (by simp)
  | cons p3 t3 =>
  cases t3 with
  | nil => rw [hs0] at h; exact absurd h (by simp)
  | cons p4 t4 =>
  cases t4 with
  | nil => rw [hs0] at h; exact absurd h (by simp)
  | cons p5 t5 =>
  cases t5 with
  | nil => rw [hs0] at h; exact absurd h (by simp)
  | cons p6 t6 =>
  cases t6 with
  | cons p7 ps => rw [hs0] at h; exact absurd h (by simp)
  | nil =>
  rw [hs0] at h
  dsimp only at h
  by_cases hcond : p1 = "arn".data ∧ p2 = "aws".data ∧ p3 = "sns".data ∧ p4 ≠ [] ∧
      p4.all isRegionChar = true ∧ p5.length = 12 ∧ p5.all Char.isDigit = true ∧
      nameOk p6 = true
  case neg => rw [if_neg hcond] at h; exact absurd h (by simp)
  case pos =>
  rw [if_pos hcond] at h
  obtain ⟨h1, h2, h3, h4, h5, h6, h7, h8⟩ := hcond
  have hjoin : joinColon (splitOnColon s.data) = s.data := joinColon_splitOnColon s.data
  rw [hs0, joinColon_six] at hjoin
  cases hsuf : fifoSuffix.isSuffixOf p6
  case false =>
    rw [hsuf] at h
    simp only [Bool.false_eq_true, if_false, Option.some.injEq, Prod.mk.injEq] at h
    obtain ⟨hreg, hacc, hname, hfifo⟩ := h
    obtain ⟨hn1, hn2⟩ := nameOk_elim_nofifo p6 hsuf h8
    subst hfifo
    have hregd : region.data = p4 := by rw [← hreg]
    have haccd : account.data = p5 := by rw [← hacc]
    have hnamed : name.data = p6 := by rw [← hname]
    constructor
    · apply string_data_inj
      rw [data_composeSnsArn]
      have hfdata : (if (false : Bool) = true then (".fifo" : String) else "").data = [] := rfl
      rw [hfdata, List.append_nil, hregd, haccd, hnamed]
      rw [← hjoin, h1, h2, h3]
      simp [List.append_assoc]
    · exact ⟨by rw [hregd]; exact h4, by rw [hregd]; exact h5,
        by rw [haccd]; exact h6, by rw [haccd]; exact h7,
        by rw [hnamed]; exact hn1, by rw [hnamed]; exact hn2⟩
  case true =>
    rw [hsuf] at h
    simp only [if_true, Option.some.injEq, Prod.mk.injEq] at h
    obtain ⟨hreg, hacc, hname, hfifo⟩ := h
    have hsuf2 : fifoSuffix <:+ p6 := by
      rw [← List.isSuffixOf_iff_suffix]
      exact hsuf
    obtain ⟨pre, hpre⟩ := hsuf2
    subst hfifo
    obtain ⟨hn1, hn2⟩ := nameOk_elim_fifo pre (by rw [← hpre] at h8; exact h8)
    have hregd : region.data = p4 := by rw [← hreg]
    have haccd : account.data = p5 := by rw [← hacc]
    have hnamed : name.data = pre := by
      rw [← hname]
      show p6.take (p6.length - 5) = pre
      rw [← hpre, take_sub_five]
    constructor
    · apply string_data_inj
      rw [data_composeSnsArn]
      have hfdata : (if (true : Bool) = true then (".fifo" : String) else "").data =
        fifoSuffix := rfl
      rw [hfdata, hregd, haccd, hnamed]
      rw [← hjoin, h1, h2, h3, ← hpre]
      simp [List.append_assoc]
    · exact ⟨by rw [hregd]; exact h4, by rw [hregd]; exact h5,
        by rw [haccd]; exact h6, by rw [haccd]; exact h7,
        by rw [hnamed]; exact hn1, by rw [hnamed]; exact hn2⟩

theorem isValidSnsArn_sound (s : String) (h : isValidSnsArn s = true) :
    ∃ region account name fifo, s = composeSnsArn region account name fifo ∧
      arnPartsOk region account name ∧
      getTopicNameFromArn s = .ok name := by
  unfold isValidSnsArn at h
  rw [Option.isSome_iff_exists] at h
  obtain ⟨⟨region, account, name, fifo⟩, hp⟩ := h
  obtain ⟨hcomp, hok⟩ := parseSnsArn_sound s region account name fifo hp
  refine ⟨region, account, name, fifo, hcomp, hok, ?_⟩
  rw [hcomp]
  exact getTopicNameFromArn_composed region account name fifo hok

end Sns

namespace Sns

/-! Lemmas about the batch worker and the dispatcher. -/

theorem except_bind_ok {ε α β : Type} (a : α) (k : α → Except ε β) :
    (Except.ok a >>= k) = k a := rfl

theorem except_bind_error {ε α β : Type} (e : ε) (k : α → Except ε β) :
    ((Except.error e : Except ε α) >>= k) = Except.error e := rfl

theorem exceptMapM_ok_mem {ε α β : Type} (f : α → Except ε β) (l : List α) (rs : List β)
    (h : exceptMapM f l = .ok rs) : ∀ a ∈ l, ∃ r ∈ rs, f a = .ok r := by
  induction l generalizing rs with
  | nil => intro a ha; exact absurd ha (List.not_mem_nil a)
  | cons x xs ih =>
    unfold exceptMapM at h
    cases hf : f x with
    | error e => rw [hf, except_bind_error] at h; exact absurd h (by simp)
    | ok r =>
      rw [hf, except_bind_ok] at h
      cases hm : exceptMapM f xs with
      | error e => rw [hm, except_bind_error] at h; exact absurd h (by simp)
      | ok rs' =>
        rw [hm, except_bind_ok] at h
        have hrs : r :: rs' = rs := by
          have := h
          simpa [pure, Except.pure] using this
        subst hrs
        intro a ha
        rcases List.mem_cons.mp ha with rfl | hmem
        · exact ⟨r, List.mem_cons_self r rs', hf⟩
        · obtain ⟨r', hr', hfr'⟩ := ih rs' hm a hmem
          exact ⟨r', List.mem_cons_of_mem r hr', hfr'⟩

theorem exceptMapM_ok_mem_rev {ε α β : Type} (f : α → Except ε β) (l : List α) (rs : List β)
    (h : exceptMapM f l = .ok rs) : ∀ r ∈ rs, ∃ a ∈ l, f a = .ok r := by
  induction l generalizing rs with
  | nil =>
    intro r hr
    unfold exceptMapM at h
    have hrs : ([] : List β) = rs := by simpa using h
    subst hrs
    exact absurd hr (List.not_mem_nil r)
  | cons x xs ih =>
    unfold exceptMapM at h
    cases hf : f x with
    | error e => rw [hf, except_bind_error] at h; exact absurd h (by simp)
    | ok r0 =>
      rw [hf, except_bind_ok] at h
      cases hm : exceptMapM f xs with
      | error e => rw [hm, except_bind_error] at h; exact absurd h (by simp)
      | ok rs' =>
        rw [hm, except_bind_ok] at h
        have hrs : r0 :: rs' = rs := by simpa [pure, Except.pure] using h
        subst hrs
        intro r hr
        rcases List.mem_cons.mp hr with rfl | hmem
        · exact ⟨x, List.mem_cons_self x xs, hf⟩
        · obtain ⟨a, ha, hfa⟩ := ih rs' hm r hmem
          exact ⟨a, List.mem_cons_of_mem x ha, hfa⟩

theorem exceptMapM_error_of_all_error {ε α β : Type} (f : α → Except ε β) (l : List α)
    (e : ε) (hne : l ≠ []) (h : ∀ a ∈ l, f a = .error e) : exceptMapM f l = .error e := by
  cases l with
  | nil => exact absurd rfl hne
  | cons x xs =>
    unfold exceptMapM
    rw [h x (List.mem_cons_self x xs), except_bind_error]

theorem formatAndUpload_lookup_error (env : Env) (pe : ParsedEvent) (e : SnsTriggerError)
    (h : getParameterValue env = .error e) :
    formatAndUploadEventWithS3Content env pe = .error e := by
  unfold formatAndUploadEventWithS3Content
  rw [h]
  rfl

theorem formatAndUpload_ok (env : Env) (pe : ParsedEvent) (bucketList : List Bucket)
    (info : BucketInfo) (hp : getParameterValue env = .ok bucketList)
    (hu : uploadContentS3Path env bucketList pe.extraProperties.contentS3Path = some info) :
    formatAndUploadEventWithS3Content env pe =
      .ok (.inl { wireOfParsed pe with
        Message := formatBodyWithContentS3Path pe
          pe.extraProperties.payloadFixedProperties
          pe.extraProperties.contentS3Path (some info) }) := by
  unfold formatAndUploadEventWithS3Content
  rw [hp, except_bind_ok, hu]
  rfl

theorem formatAndUpload_allfail (env : Env) (pe : ParsedEvent) (bucketList : List Bucket)
    (hp : getParameterValue env = .ok bucketList)
    (hu : uploadContentS3Path env bucketList pe.extraProperties.contentS3Path = none) :
    formatAndUploadEventWithS3Content env pe =
      .ok (.inr { Id := pe.Id, Code := codeS3_ERROR,
                  Message := "Failed to upload to all provided s3 buckets" }) := by
  unfold formatAndUploadEventWithS3Content
  rw [hp, except_bind_ok, hu]
  rfl

theorem uploadContentS3Path_second (env : Env) (b0 b1 : Bucket) (path : String)
    (h0 : env.uploadOk b0 path = false) (h1 : env.uploadOk b1 path = true) :
    uploadContentS3Path env [b0, b1] path =
      some { bucketName := b1.bucketName, region := b1.region } := by
  unfold uploadContentS3Path
  rw [h0]
  simp only [Bool.false_eq_true, if_false]
  unfold uploadContentS3Path
  rw [h1]
  simp

theorem uploadContentS3Path_none (env : Env) (buckets : List Bucket) (path : String)
    (h : ∀ b ∈ buckets, env.uploadOk b path = false) :
    uploadContentS3Path env buckets path = none := by
  induction buckets with
  | nil => rfl
  | cons b rest ih =>
    unfold uploadContentS3Path
    rw [h b (List.mem_cons_self b rest)]
    simp only [Bool.false_eq_true, if_false]
    exact ih (fun b' hb' => h b' (List.mem_cons_of_mem b hb'))

end Sns

namespace Sns

theorem processBatch_error (env : Env) (batch : List ParsedEvent) (e : SnsTriggerError)
    (hm : exceptMapM (formatAndUploadEventWithS3Content env)
      (batch.filter (fun pe => pe.limitExceeded)) = .error e) :
    processBatch env batch = (.error e, []) := by
  simp only [processBatch]
  rw [hm]

theorem processBatch_ok_eq (env : Env) (batch : List ParsedEvent)
    (rs : List (WireEntry ⊕ FailedRaw))
    (hm : exceptMapM (formatAndUploadEventWithS3Content env)
      (batch.filter (fun pe => pe.limitExceeded)) = .ok rs) :
    processBatch env batch =
      (let smalls := (batch.filter (fun pe => !pe.limitExceeded)).map wireOfParsed
       let s3Failed := rs.filterMap (fun r =>
         match r with
         | .inr e => some e
         | .inl _ => none)
       let uploaded := rs.filterMap (fun r =>
         match r with
         | .inl w => some w
         | .inr _ => none)
       let entries := smalls ++ uploaded
       if entries.length = 0 then
         ((.ok { Successful := none, Failed := some s3Failed } :
            Except SnsTriggerError SnsOutcome), ([] : List (List WireEntry)))
       else
         (.ok { env.transport entries with
            Failed := some (((env.transport entries).Failed.getD []) ++ s3Failed) },
          [entries])) := by
  simp only [processBatch]
  rw [hm]

theorem processBatch_lookup_error (env : Env) (batch : List ParsedEvent)
    (e : SnsTriggerError) (h : getParameterValue env = .error e) (pe : ParsedEvent)
    (hpe : pe ∈ batch) (hlim : pe.limitExceeded = true) :
    processBatch env batch = (.error e, []) := by
  apply processBatch_error
  apply exceptMapM_error_of_all_error
  · exact List.ne_nil_of_mem (List.mem_filter.mpr ⟨hpe, hlim⟩)
  · intro a ha
    exact formatAndUpload_lookup_error env a e h

theorem processBatch_ok_of_no_bigs (env : Env) (batch : List ParsedEvent)
    (h : ∀ pe ∈ batch, pe.limitExceeded = false) :
    ∃ out calls, processBatch env batch = (.ok out, calls) := by
  have hfil : batch.filter (fun pe => pe.limitExceeded) = [] := by
    rw [List.filter_eq_nil]
    intro a ha
    simp [h a ha]
  have hm : exceptMapM (formatAndUploadEventWithS3Content env)
      (batch.filter (fun pe => pe.limitExceeded)) = .ok [] := by
    rw [hfil]
    rfl
  rw [processBatch_ok_eq env batch [] hm]
  dsimp only
  split
  · exact ⟨_, _, rfl⟩
  · exact ⟨_, _, rfl⟩

theorem processBatch_small_published (env : Env) (batch : List ParsedEvent)
    (pe : ParsedEvent) (out : SnsOutcome) (calls : List (List WireEntry))
    (hpe : pe ∈ batch) (hlim : pe.limitExceeded = false)
    (h : processBatch env batch = (.ok out, calls)) :
    ∃ call ∈ calls, wireOfParsed pe ∈ call := by
  cases hm : exceptMapM (formatAndUploadEventWithS3Content env)
      (batch.filter (fun q => q.limitExceeded)) with
  | error e =>
    rw [processBatch_error env batch e hm] at h
    simp at h
  | ok rs =>
    rw [processBatch_ok_eq env batch rs hm] at h
    dsimp only at h
    have hwmem : wireOfParsed pe ∈ (batch.filter (fun q => !q.limitExceeded)).map wireOfParsed :=
      List.mem_map_of_mem wireOfParsed (List.mem_filter.mpr ⟨hpe, by simp [hlim]⟩)
    have hent : wireOfParsed pe ∈
        (batch.filter (fun q => !q.limitExceeded)).map wireOfParsed ++
        rs.filterMap (fun r =>
          match r with
          | .inl w => some w
          | .inr _ => none) :=
      List.mem_append_left _ hwmem
    have hne : ¬ ((batch.filter (fun q => !q.limitExceeded)).map wireOfParsed ++
        rs.filterMap (fun r =>
          match r with
          | .inl w => some w
          | .inr _ => none)).length = 0 := by
      have := List.length_pos_of_mem hent
      omega
    rw [if_neg hne] at h
    have hcalls : calls = [(batch.filter (fun q => !q.limitExceeded)).map wireOfParsed ++
        rs.filterMap (fun r =>
          match r with
          | .inl w => some w
          | .inr _ => none)] := by
      have := (Prod.mk.injEq _ _ _ _).mp h
      exact this.2.symm
    rw [hcalls]
    exact ⟨_, List.mem_singleton_self _, hent⟩

theorem processBatch_uploaded_published (env : Env) (batch : List ParsedEvent)
    (pe : ParsedEvent) (we : WireEntry) (out : SnsOutcome) (calls : List (List WireEntry))
    (hpe : pe ∈ batch) (hlim : pe.limitExceeded = true)
    (hfu : formatAndUploadEventWithS3Content env pe = .ok (.inl we))
    (h : processBatch env batch = (.ok out, calls)) :
    ∃ call ∈ calls, we ∈ call := by
  cases hm : exceptMapM (formatAndUploadEventWithS3Content env)
      (batch.filter (fun q => q.limitExceeded)) with
  | error e =>
    rw [processBatch_error env batch e hm] at h
    simp at h
  | ok rs =>
    obtain ⟨r, hr, hfr⟩ := exceptMapM_ok_mem _ _ _ hm pe (List.mem_filter.mpr ⟨hpe, hlim⟩)
    have hrw : r = .inl we := by
      rw [hfu] at hfr
      exact (Except.ok.injEq _ _).mp hfr.symm
    subst hrw
    rw [processBatch_ok_eq env batch rs hm] at h
    dsimp only at h
    have hup : we ∈ rs.filterMap (fun r =>
        match r with
        | .inl w => some w
        | .inr _ => none) := by
      exact List.mem_filterMap.mpr ⟨.inl we, hr, rfl⟩
    have hent : we ∈
        (batch.filter (fun q => !q.limitExceeded)).map wireOfParsed ++
        rs.filterMap (fun r =>
          match r with
          | .inl w => some w
          | .inr _ => none) :=
      List.mem_append_right _ hup
    have hne : ¬ ((batch.filter (fun q => !q.limitExceeded)).map wireOfParsed ++
        rs.filterMap (fun r =>
          match r with
          | .inl w => some w
          | .inr _ => none)).length = 0 := by
      have := List.length_pos_of_mem hent
      omega
    rw [if_neg hne] at h
    have hcalls : calls = [(batch.filter (fun q => !q.limitExceeded)).map wireOfParsed ++
        rs.filterMap (fun r =>
          match r with
          | .inl w => some w
          | .inr _ => none)] := by
      have := (Prod.mk.injEq _ _ _ _).mp h
      exact this.2.symm
    rw [hcalls]
    exact ⟨_, List.mem_singleton_self _, hent⟩

end Sns

namespace Sns

/-- The per-entry failure entry synthesized when every destination rejects
an offloaded payload. -/
def s3FailedEntry (pe : ParsedEvent) : FailedRaw :=
  { Id := pe.Id, Code := codeS3_ERROR,
    Message := "Failed to upload to all provided s3 buckets" }

theorem processBatch_allfail_facts (env : Env) (batch : List ParsedEvent)
    (bucketList : List Bucket) (out : SnsOutcome) (calls : List (List WireEntry))
    (hp : getParameterValue env = .ok bucketList)
    (hfail : ∀ b ∈ bucketList, ∀ path, env.uploadOk b path = false)
    (h : processBatch env batch = (.ok out, calls)) :
    (∀ pe ∈ batch, pe.limitExceeded = true → s3FailedEntry pe ∈ out.Failed.getD []) ∧
    (∀ call ∈ calls, ∀ w ∈ call, ∃ q ∈ batch, q.limitExceeded = false ∧ w = wireOfParsed q) := by
  have hfa : ∀ a ∈ batch.filter (fun q => q.limitExceeded),
      formatAndUploadEventWithS3Content env a = .ok (.inr (s3FailedEntry a)) := by
    intro a ha
    exact formatAndUpload_allfail env a bucketList hp
      (uploadContentS3Path_none env bucketList _ (fun b hb => hfail b hb _))
  cases hm : exceptMapM (formatAndUploadEventWithS3Content env)
      (batch.filter (fun q => q.limitExceeded)) with
  | error e =>
    rw [processBatch_error env batch e hm] at h
    simp at h
  | ok rs =>
    have hupnil : rs.filterMap (fun r =>
        match r with
        | .inl w => some w
        | .inr _ => none) = [] := by
      rw [List.filterMap_eq_nil]
      intro r hr
      obtain ⟨a, ha, hfar⟩ := exceptMapM_ok_mem_rev _ _ _ hm r hr
      rw [hfa a ha] at hfar
      have : Sum.inr (s3FailedEntry a) = r := (Except.ok.injEq _ _).mp hfar
      rw [← this]
    have hsmem : ∀ pe ∈ batch, pe.limitExceeded = true →
        s3FailedEntry pe ∈ rs.filterMap (fun r =>
          match r with
          | .inr e => some e
          | .inl _ => none) := by
      intro pe hpe hlim
      obtain ⟨r, hr, hfr⟩ := exceptMapM_ok_mem _ _ _ hm pe (List.mem_filter.mpr ⟨hpe, hlim⟩)
      rw [hfa pe (List.mem_filter.mpr ⟨hpe, hlim⟩)] at hfr
      have : Sum.inr (s3FailedEntry pe) = r := (Except.ok.injEq _ _).mp hfr.symm.symm
      rw [← this] at hr
      exact List.mem_filterMap.mpr ⟨_, hr, rfl⟩
    rw [processBatch_ok_eq env batch rs hm] at h
    dsimp only at h
    rw [hupnil, List.append_nil] at h
    by_cases hz : ((batch.filter (fun q => !q.limitExceeded)).map wireOfParsed).length = 0
    · rw [if_pos hz] at h
      obtain ⟨h1, h2⟩ := (Prod.mk.injEq _ _ _ _).mp h
      have hout : ({ Successful := none,
                     Failed := some (rs.filterMap (fun r =>
                       match r with
                       | .inr e => some e
                       | .inl _ => none)) } : SnsOutcome) = out :=
        (Except.ok.injEq _ _).mp h1
      constructor
      · intro pe hpe hlim
        rw [← hout]
        exact hsmem pe hpe hlim
      · intro call hcall
        rw [← h2] at hcall
        exact absurd hcall (List.not_mem_nil call)
    · rw [if_neg hz] at h
      obtain ⟨h1, h2⟩ := (Prod.mk.injEq _ _ _ _).mp h
      have hout : { env.transport ((batch.filter (fun q => !q.limitExceeded)).map wireOfParsed) with
          Failed := some (((env.transport
            ((batch.filter (fun q => !q.limitExceeded)).map wireOfParsed)).Failed.getD []) ++
            rs.filterMap (fun r =>
              match r with
              | .inr e => some e
              | .inl _ => none)) } = out := (Except.ok.injEq _ _).mp h1
      constructor
      · intro pe hpe hlim
        rw [← hout]
        exact List.mem_append_right _ (hsmem pe hpe hlim)
      · intro call hcall w hw
        rw [← h2] at hcall
        rcases List.mem_singleton.mp hcall with rfl
        obtain ⟨q, hq, hwq⟩ := List.mem_map.mp hw
        have hqf := List.mem_filter.mp hq
        refine ⟨q, hqf.1, ?_, hwq.symm⟩
        have := hqf.2
        cases hb : q.limitExceeded
        · rfl
        · rw [hb] at this; simp at this

theorem processAll_lookup_error (env : Env) (batches : List (List ParsedEvent))
    (e : SnsTriggerError) (h : getParameterValue env = .error e)
    (hbig : ∃ b ∈ batches, ∃ pe ∈ b, pe.limitExceeded = true) :
    (processAll env batches).1 = .error e := by
  induction batches with
  | nil =>
    obtain ⟨b, hb, _⟩ := hbig
    exact absurd hb (List.not_mem_nil b)
  | cons b0 bs ih =>
    by_cases hb0 : ∃ pe ∈ b0, pe.limitExceeded = true
    · obtain ⟨pe, hpe, hlim⟩ := hb0
      have hpb := processBatch_lookup_error env b0 e h pe hpe hlim
      unfold processAll
      rw [hpb]
    · have hclean : ∀ pe ∈ b0, pe.limitExceeded = false := by
        intro pe hpe
        cases hb : pe.limitExceeded
        · rfl
        · exact absurd ⟨pe, hpe, hb⟩ hb0
      obtain ⟨out, calls, hok⟩ := processBatch_ok_of_no_bigs env b0 hclean
      have htail : ∃ b ∈ bs, ∃ pe ∈ b, pe.limitExceeded = true := by
        obtain ⟨b, hb, pe, hpe, hlim⟩ := hbig
        rcases List.mem_cons.mp hb with rfl | hmem
        · exact absurd ⟨pe, hpe, hlim⟩ hb0
        · exact ⟨b, hmem, pe, hpe, hlim⟩
      unfold processAll
      rw [hok]
      cases hpa : processAll env bs with
      | mk r more =>
        have hr : r = .error e := by
          have := ih htail
          rw [hpa] at this
          exact this
        rw [hr]

/-- The aggregated-success contribution of one batch outcome. -/
def successPart (r : SnsOutcome) : List SuccessOut :=
  match r.Successful with
  | some succ => succ.map formatSuccessEntry
  | none => []

/-- The aggregated-failure contribution of one batch outcome: its failed
entries sorted by numeric identifier (empty lists are skipped). -/
def failedPart (r : SnsOutcome) : List FailedRaw :=
  match r.Failed with
  | some f => if f.length = 0 then [] else sortFailedById f
  | none => []

theorem formatSnsResponseStep_success (resp : SnsResponse) (r : SnsOutcome) :
    (formatSnsResponseStep resp r).success = resp.success ++ successPart r := by
  unfold formatSnsResponseStep successPart
  cases r.Successful with
  | none =>
    cases r.Failed with
    | none => simp
    | some f =>
      by_cases hz : f.length = 0
      · simp [hz]
      · simp [hz]
  | some succ =>
    cases r.Failed with
    | none => simp
    | some f =>
      by_cases hz : f.length = 0
      · simp [hz]
      · simp [hz]

theorem formatSnsResponseStep_failed (resp : SnsResponse) (r : SnsOutcome) :
    (formatSnsResponseStep resp r).failed = resp.failed ++ failedPart r := by
  unfold formatSnsResponseStep failedPart
  cases r.Successful with
  | none =>
    cases r.Failed with
    | none => simp
    | some f =>
      by_cases hz : f.length = 0
      · simp [hz]
      · simp [hz]
  | some succ =>
    cases r.Failed with
    | none => simp
    | some f =>
      by_cases hz : f.length = 0
      · simp [hz]
      · simp [hz]

theorem formatSnsResponse_aux (results : List SnsOutcome) (init : SnsResponse) :
    (results.foldl formatSnsResponseStep init).success =
      init.success ++ results.flatMap successPart ∧
    (results.foldl formatSnsResponseStep init).failed =
      init.failed ++ results.flatMap failedPart := by
  induction results generalizing init with
  | nil => simp
  | cons r rest ih =>
    rw [List.foldl_cons]
    obtain ⟨ihs, ihf⟩ := ih (formatSnsResponseStep init r)
    constructor
    · rw [ihs, formatSnsResponseStep_success]
      simp [List.append_assoc]
    · rw [ihf, formatSnsResponseStep_failed]
      simp [List.append_assoc]

theorem formatSnsResponse_success (results : List SnsOutcome) :
    (formatSnsResponse results).success = results.flatMap successPart := by
  have := (formatSnsResponse_aux results
    { successCount := 0, failedCount := 0, success := [], failed := [] }).1
  simpa [formatSnsResponse] using this

theorem formatSnsResponse_failed (results : List SnsOutcome) :
    (formatSnsResponse results).failed = results.flatMap failedPart := by
  have := (formatSnsResponse_aux results
    { successCount := 0, failedCount := 0, success := [], failed := [] }).2
  simpa [formatSnsResponse] using this

end Sns

namespace Sns

instance exceptDecEq {ε α : Type} [DecidableEq ε] [DecidableEq α] :
    DecidableEq (Except ε α) := fun a b =>
  match a, b with
  | .ok x, .ok y =>
    if h : x = y then isTrue (by rw [h])
    else isFalse (fun hh => h ((Except.ok.injEq _ _).mp hh))
  | .error e, .error f =>
    if h : e = f then isTrue (by rw [h])
    else isFalse (fun hh => h ((Except.error.injEq _ _).mp hh))
  | .ok _, .error _ => isFalse (fun hh => Except.noConfusion hh)
  | .error _, .ok _ => isFalse (fun hh => Except.noConfusion hh)

/-! Concrete fixtures used by witnesses and counterexamples. -/

def ctxD : Ctx := { sessionClientCode := some "defaultClient", serviceName := "service-name" }

def dateD : DateYMD := { year := 2025, monthIndex := 2, day := 6 }

def genD : Nat → DateYMD × String := fun _ => (dateD, "fake-id")

def evSmall : SNSEvent := { content := .obj [("foo", .str "bar")] }

def arnD : String := "arn:aws:sns:us-east-1:123456789012:MyTopic"

def bucketsD : List Bucket :=
  [{ bucketName := "sample-bucket-name-us-east-1", region := "us-east-1", isDefault := true },
   { bucketName := "sample-bucket-name-us-west-1", region := "us-west-1" }]

def echoTransport : List WireEntry → SnsOutcome := fun entries =>
  { Successful := some (entries.map (fun e =>
      { Id := e.Id.getD "", MessageId := "mid-" ++ e.Id.getD "" })),
    Failed := none }

def envEcho : Env :=
  { ramResources := .ok ["arn:aws:ssm:us-east-1:12345678:parameter/shared/internal-storage"],
    ssmValue := fun _ => .ok bucketsD,
    uploadOk := fun _ _ => true,
    transport := echoTransport }

/-- C6 (claim): for every identifier matching the
`arn:aws:sns:region:account:name[.fifo]` pattern, the topic resolver returns
the trailing name segment with any `.fifo` suffix stripped; every other
string produces an `INVALID_SNS_ARN` error carrying the offending string.
The pattern language is parameterized exactly by `composeSnsArn` over
`arnPartsOk` parts: part 1 is extraction on every pattern word, part 2 shows
every accepted string is such a pattern word (so rejection coincides with
the pattern), part 3 is the error shape on every rejected string. -/
theorem claim_C6 :
    (∀ region account name fifo, arnPartsOk region account name →
      getTopicNameFromArn (composeSnsArn region account name fifo) = .ok name) ∧
    (∀ s, isValidSnsArn s = true →
      ∃ region account name fifo, s = composeSnsArn region account name fifo ∧
        arnPartsOk region account name ∧ getTopicNameFromArn s = .ok name) ∧
    (∀ s, isValidSnsArn s = false →
      getTopicNameFromArn s =
        .error { message := "Invalid SNS ARN: " ++ s, code := codeINVALID_SNS_ARN }) :=
  ⟨fun region account name fifo h => getTopicNameFromArn_composed region account name fifo h,
   fun s h => isValidSnsArn_sound s h,
   fun s h => getTopicNameFromArn_invalid s h⟩

/-- Witness for C6 at the concrete ARNs of the test suite. -/
theorem claim_C6_witness :
    getTopicNameFromArn (composeSnsArn "us-east-1" "123456789012" "MyTopic" true) =
      .ok "MyTopic" ∧
    getTopicNameFromArn (composeSnsArn "us-east-1" "123456789012" "MyTopic" false) =
      .ok "MyTopic" ∧
    getTopicNameFromArn "arn:invalid-arn" =
      .error { message := "Invalid SNS ARN: " ++ "arn:invalid-arn",
               code := codeINVALID_SNS_ARN } :=
  ⟨claim_C6.1 "us-east-1" "123456789012" "MyTopic" true
      (by refine ⟨?_, ?_, ?_, ?_, ?_, ?_⟩ <;> decide),
   claim_C6.1 "us-east-1" "123456789012" "MyTopic" false
      (by refine ⟨?_, ?_, ?_, ?_, ?_, ?_⟩ <;> decide),
   claim_C6.2.2 "arn:invalid-arn" (by decide)⟩

/-- C9 (claim): the content locator path is composed, in order, of the
`topics` namespace, the tenant code segment (falling back to `core` when no
session/tenant context or an empty code is present), the deploying-service
name, the topic name, the date as `YYYY/MM/DD` with zero-padded month and
day, and the random identifier with the `json` extension; building it
without a tenant context is total and uses the fallback.  The wall-clock
date source (`new Date()` and its locale) is abstracted as the `DateYMD`
readings. -/
theorem claim_C9 :
    (∀ sess svc topicName d rid,
      getContentS3Path { sessionClientCode := sess, serviceName := svc } topicName d rid =
        "topics" ++ "/" ++
          (match sess with
           | some c => if c ≠ "" then c else "core"
           | none => "core") ++ "/" ++ svc ++ "/" ++ topicName ++ "/" ++
          formatDate d ++ "/" ++ rid ++ ".json") ∧
    (∀ d, formatDate d =
      toString d.year ++ "/" ++ padStart2 (toString (d.monthIndex + 1)) ++ "/" ++
        padStart2 (toString d.day)) ∧
    (∀ n, n < 10 → padStart2 (toString n) = "0" ++ toString n) ∧
    (∀ n, 10 ≤ n → n < 100 → padStart2 (toString n) = toString n) ∧
    (∀ svc topicName d rid,
      getContentS3Path { sessionClientCode := none, serviceName := svc } topicName d rid =
        "topics" ++ "/" ++ "core" ++ "/" ++ svc ++ "/" ++ topicName ++ "/" ++
          formatDate d ++ "/" ++ rid ++ ".json") := by
  refine ⟨?_, ?_, ?_, ?_, ?_⟩
  · intro sess svc topicName d rid
    cases sess with
    | none => simp only [getContentS3Path, joinWith, String.append_assoc]
    | some c =>
      by_cases hc : c ≠ ""
      · simp only [getContentS3Path, joinWith, if_pos hc, String.append_assoc]
      · simp only [getContentS3Path, joinWith, if_neg hc, String.append_assoc]
  · intro d
    simp only [formatDate, joinWith, String.append_assoc]
  · intro n hn
    interval_cases n <;> decide
  · intro n h1 h2
    interval_cases n <;> decide
  · intro svc topicName d rid
    simp only [getContentS3Path, joinWith, String.append_assoc]

/-- Witness for C9 at the concrete values of the test suite. -/
theorem claim_C9_witness :
    getContentS3Path { sessionClientCode := some "defaultClient",
                       serviceName := "service-name" } "MyTopic" dateD "fake-id" =
      "topics" ++ "/" ++ "defaultClient" ++ "/" ++ "service-name" ++ "/" ++ "MyTopic" ++
        "/" ++ formatDate dateD ++ "/" ++ "fake-id" ++ ".json" ∧
    padStart2 (toString 3) = "0" ++ toString 3 ∧
    padStart2 (toString 12) = toString 12 := by
  refine ⟨?_, claim_C9.2.2.1 3 (by decide), claim_C9.2.2.2.1 12 (by decide) (by decide)⟩
  have h := claim_C9.1 (some "defaultClient") "service-name" "MyTopic" dateD "fake-id"
  simpa using h

/-- C10 (claim): `publishEvents` on an empty event list (with a valid topic
ARN) resolves to the zero aggregate and issues no publish call. -/
theorem claim_C10 (ctx : Ctx) (env : Env) (topicArn : String) (gen : Nat → DateYMD × String)
    (h : isValidSnsArn topicArn = true) :
    publishEvents ctx env topicArn [] gen =
      (.ok { successCount := 0, failedCount := 0, success := [], failed := [] }, []) := by
  obtain ⟨region, account, name, fifo, hcomp, hok, htopic⟩ := isValidSnsArn_sound topicArn h
  have hparse : parseEvents ctx [] topicArn gen = .ok (parseEventsOnTopic ctx [] name gen) := by
    unfold parseEvents
    rw [htopic, except_bind_ok]
    rfl
  have hempty : parseEventsOnTopic ctx [] name gen = [[]] := rfl
  rw [hempty] at hparse
  unfold publishEvents
  rw [hparse]
  rfl

/-- Witness for C10 at the concrete topic ARN of the test suite. -/
theorem claim_C10_witness :
    publishEvents ctxD envEcho arnD [] genD =
      (.ok { successCount := 0, failedCount := 0, success := [], failed := [] }, []) :=
  claim_C10 ctxD envEcho arnD genD (by decide)

end Sns

namespace Sns

set_option maxRecDepth 100000 in
set_option maxHeartbeats 1000000 in
/-- C7 (claim): 15 uniform small events partition into exactly two batches
of 10 and 5 entries carrying the sequential identifiers 1..15 in input
order; each batch is dispatched as one publish-batch call, and the
aggregated results preserve the identifiers 1..15 in order (transport
modelled as echoing per-entry success). -/
theorem claim_C7 :
    (parseEventsOnTopic ctxD (List.replicate 15 evSmall) "MyTopic" genD).map List.length =
      [10, 5] ∧
    (parseEventsOnTopic ctxD (List.replicate 15 evSmall) "MyTopic" genD).map
        (fun b => b.map (fun pe => pe.Id)) =
      [[some "1", some "2", some "3", some "4", some "5", some "6", some "7", some "8",
        some "9", some "10"],
       [some "11", some "12", some "13", some "14", some "15"]] ∧
    (publishEvents ctxD envEcho arnD (List.replicate 15 evSmall) genD).2.map
        (fun call => call.map (fun e => e.Id)) =
      [[some "1", some "2", some "3", some "4", some "5", some "6", some "7", some "8",
        some "9", some "10"],
       [some "11", some "12", some "13", some "14", some "15"]] ∧
    (publishEvents ctxD envEcho arnD (List.replicate 15 evSmall) genD).1.map
        (fun r => (r.successCount, r.failedCount, r.success.map (fun s => s.Id))) =
      .ok (15, 0, ["1", "2", "3", "4", "5", "6", "7", "8", "9", "10", "11", "12", "13",
        "14", "15"]) := by
  refine ⟨by decide, by decide, by decide, by decide⟩

/-- Per-batch outcomes used to exercise the failure aggregation. -/
def outA : SnsOutcome :=
  { Successful := none,
    Failed := some [{ Id := some "12", Code := "SNS001", Message := "SNS Failed" }] }

def outB : SnsOutcome :=
  { Successful := none,
    Failed := some [{ Id := some "3", Code := "SNS001", Message := "SNS Failed" }] }

/-- C8 counterexample: `formatSnsResponse` sorts failed entries only within
each per-batch outcome; with the failure of identifier 12 in the first
outcome and of identifier 3 in the second, the aggregated failed list is
[12, 3], not ascending. -/
theorem claim_C8_counterexample :
    ¬ ((formatSnsResponse [outA, outB]).failed.Pairwise
        (fun a b => idNum a ≤ idNum b)) := by
  decide

/-- C8 (amended): the aggregated failed list is the concatenation, in
result order, of each per-batch outcome's failed entries sorted ascending
by numeric identifier (each contributed run is sorted and a permutation of
that batch's failed entries); global sortedness across batches is not
enforced.  Success and failed entries preserve their original identifiers. -/
theorem claim_C8 (results : List SnsOutcome) :
    (formatSnsResponse results).failed = results.flatMap failedPart ∧
    (∀ r ∈ results, (failedPart r).Pairwise (fun a b => idNum a ≤ idNum b)) ∧
    (∀ r ∈ results, (failedPart r).Perm (r.Failed.getD [])) ∧
    (formatSnsResponse results).success = results.flatMap successPart ∧
    (∀ r : SnsOutcome, successPart r = (r.Successful.getD []).map formatSuccessEntry) ∧
    (∀ s : SuccessRaw, (formatSuccessEntry s).Id = s.Id) := by
  refine ⟨formatSnsResponse_failed results, ?_, ?_, formatSnsResponse_success results,
    ?_, fun s => rfl⟩
  · intro r hr
    unfold failedPart
    cases r.Failed with
    | none => simp
    | some f =>
      by_cases hz : f.length = 0
      · simp [hz]
      · simp only [hz, if_false]
        exact sortFailedById_pairwise f
  · intro r hr
    unfold failedPart
    cases r.Failed with
    | none => simp
    | some f =>
      by_cases hz : f.length = 0
      · have : f = [] := List.length_eq_zero.mp hz
        simp [hz, this]
      · simp only [hz, if_false, Option.getD_some]
        exact sortFailedById_perm f
  · intro r
    unfold successPart
    cases r.Successful with
    | none => simp
    | some succ => simp

/-- Witness for C8 at the two concrete outcomes. -/
theorem claim_C8_witness :
    (formatSnsResponse [outA, outB]).failed = [outA, outB].flatMap failedPart ∧
    (failedPart outA).Pairwise (fun a b => idNum a ≤ idNum b) ∧
    (failedPart outA).Perm (outA.Failed.getD []) :=
  ⟨(claim_C8 [outA, outB]).1,
   (claim_C8 [outA, outB]).2.1 outA (by decide),
   (claim_C8 [outA, outB]).2.2.1 outA (by decide)⟩

end Sns

namespace Sns

/-- C3 (claim): an event whose formatted size is within the 256 KiB ceiling
is not marked for offload (`handleEventSizeLimit` is the identity on it),
its wire entry's message body is exactly the serialization of the event's
`content`, the wire entry carries no offload fields (`extraProperties` and
the `limitExceeded` marker are stripped by construction of `WireEntry`),
and whenever its batch is processed successfully the entry is included
unchanged in that batch's publish call. -/
theorem claim_C3 (ctx : Ctx) (event : SNSEvent) (topicName : String) (i : Nat)
    (d : DateYMD) (rid : String)
    (h : parsedEventSize (formatSNSEvent ctx event topicName (some i) d rid) ≤
      SNS_MESSAGE_LIMIT_SIZE) :
    handleEventSizeLimit (formatSNSEvent ctx event topicName (some i) d rid)
        (parsedEventSize (formatSNSEvent ctx event topicName (some i) d rid)) =
      (formatSNSEvent ctx event topicName (some i) d rid,
       parsedEventSize (formatSNSEvent ctx event topicName (some i) d rid)) ∧
    (formatSNSEvent ctx event topicName (some i) d rid).limitExceeded = false ∧
    (wireOfParsed (formatSNSEvent ctx event topicName (some i) d rid)).Message =
      event.content ∧
    (∀ env batch out calls, processBatch env batch = (.ok out, calls) →
      formatSNSEvent ctx event topicName (some i) d rid ∈ batch →
      ∃ call ∈ calls,
        wireOfParsed (formatSNSEvent ctx event topicName (some i) d rid) ∈ call) := by
  refine ⟨handleEventSizeLimit_le _ _ (by omega), rfl, rfl, ?_⟩
  intro env batch out calls hpb hmem
  exact processBatch_small_published env batch _ out calls hmem rfl hpb

def peW : ParsedEvent := formatSNSEvent ctxD evSmall "MyTopic" (some 1) dateD "fake-id"

set_option maxRecDepth 100000 in
/-- Witness for C3 at a concrete small event, published through the worker. -/
theorem claim_C3_witness :
    parsedEventSize peW ≤ SNS_MESSAGE_LIMIT_SIZE ∧
    (wireOfParsed peW).Message = evSmall.content ∧
    ∃ call ∈ (processBatch envEcho [peW]).2, wireOfParsed peW ∈ call := by
  have h := claim_C3 ctxD evSmall "MyTopic" 1 dateD "fake-id" (by decide)
  refine ⟨by decide, h.2.2.1, ?_⟩
  cases hpb : processBatch envEcho [peW] with
  | mk r calls =>
    cases r with
    | ok out =>
      have hex := h.2.2.2 envEcho [peW] out calls hpb (List.mem_singleton_self _)
      exact hex
    | error e =>
      have hok : (processBatch envEcho [peW]).1.isOk = true := by decide
      rw [hpb] at hok
      simp [Except.isOk, Except.toBool] at hok

end Sns


namespace Sns

/-- The locator object embedded in an offloaded message body. -/
def locatorJson (path : String) (info : Option BucketInfo) : Json :=
  .obj ([("path", .str path)] ++
    match info with
    | some b => [("bucketName", .str b.bucketName), ("region", .str b.region)]
    | none => [])

theorem formatBody_getProp (pe : ParsedEvent) (pfp : Option (List String)) (path : String)
    (info : Option BucketInfo) (k : String) :
    (formatBodyWithContentS3Path pe pfp path info).getProp k =
      if k ∈ pfp.getD [] ∧ (pe.Message.getProp k).isSome then pe.Message.getProp k
      else if k = "contentS3Location" then some (locatorJson path info)
      else none := by
  have hbase : ∀ k', lookupProp [("contentS3Location", locatorJson path info)] k' =
      if k' = "contentS3Location" then some (locatorJson path info) else none := by
    intro k'
    by_cases hk : k' = "contentS3Location"
    · simp [lookupProp, hk]
    · have hk2 : ¬ "contentS3Location" = k' := fun he => hk he.symm
      simp [lookupProp, hk, hk2]
  unfold formatBodyWithContentS3Path
  cases pfp with
  | none =>
    simp only [Option.getD_none, List.not_mem_nil, false_and, if_false]
    exact hbase k
  | some keys =>
    by_cases hz : keys.length = 0
    · have hkeys : keys = [] := List.length_eq_zero.mp hz
      subst hkeys
      simp only [if_pos rfl, Option.getD_some, List.not_mem_nil, false_and, if_false]
      exact hbase k
    · simp only [if_neg hz, Option.getD_some]
      show lookupProp ((pickProperties pe.Message keys).foldl
        (fun acc kv => setProp acc kv.1 kv.2)
        [("contentS3Location", locatorJson path info)]) k = _
      rw [lookupProp_foldl_setProp _ _ _ (pickProperties_nodup pe.Message keys)]
      rw [pickProperties_lookup]
      by_cases hc : k ∈ keys ∧ (pe.Message.getProp k).isSome
      · rw [if_pos hc, if_pos hc]
        obtain ⟨hs, hv⟩ := Option.isSome_iff_exists.mp hc.2
        rw [hv]
      · rw [if_neg hc, if_neg hc]
        exact hbase k

theorem parsedEventSize_gt_of_field (pe : ParsedEvent) (fs : List (String × Json))
    (k : String) (n : Nat) (hc : pe.Message = Json.obj fs)
    (hmem : (k, Json.str (strN n)) ∈ fs) (hn : SNS_MESSAGE_LIMIT_SIZE ≤ n) :
    SNS_MESSAGE_LIMIT_SIZE < parsedEventSize pe := by
  have h1 : (Json.str (strN n)).stringify.length ≤ (Json.obj fs).stringify.length :=
    stringify_obj_ge fs (k, Json.str (strN n)) hmem
  have h2 := parsedEventSize_ge_message pe
  rw [hc] at h2
  rw [strN_stringify_length] at h1
  omega

theorem marked_Message (pe : ParsedEvent) (sz : Nat) :
    ((handleEventSizeLimit pe sz).1).Message = pe.Message := by
  unfold handleEventSizeLimit
  split <;> rfl

theorem marked_extraProperties (pe : ParsedEvent) (sz : Nat) :
    ((handleEventSizeLimit pe sz).1).extraProperties = pe.extraProperties := by
  unfold handleEventSizeLimit
  split <;> rfl

theorem marked_limitExceeded_gt (pe : ParsedEvent) (sz : Nat)
    (h : sz > SNS_MESSAGE_LIMIT_SIZE) :
    ((handleEventSizeLimit pe sz).1).limitExceeded = true := by
  rw [handleEventSizeLimit_gt _ _ h]

/-- C2 (amended): for an event whose formatted size exceeds the 256 KiB
ceiling and whose offload upload succeeds, the outgoing body carries under
`contentS3Location` the locator (storage path, destination name and
region), and at every other key exactly the keys listed in
`payloadFixedProperties` that exist as own properties of the original
content, with their original values (listed-but-absent keys and unlisted
keys are absent) — provided `contentS3Location` itself is not among the
listed fixed properties; if it is, the picked original value overwrites the
locator (see the counterexample). -/
theorem claim_C2 (ctx : Ctx) (event : SNSEvent) (topicName : String) (i : Nat)
    (d : DateYMD) (rid : String) (env : Env) (bucketList : List Bucket) (info : BucketInfo)
    (hsz : SNS_MESSAGE_LIMIT_SIZE <
      parsedEventSize (formatSNSEvent ctx event topicName (some i) d rid))
    (hp : getParameterValue env = .ok bucketList)
    (hu : uploadContentS3Path env bucketList
      (formatSNSEvent ctx event topicName (some i) d rid).extraProperties.contentS3Path =
      some info)
    (hnc : "contentS3Location" ∉ event.payloadFixedProperties.getD []) :
    ∃ we, formatAndUploadEventWithS3Content env
        (handleEventSizeLimit (formatSNSEvent ctx event topicName (some i) d rid)
          (parsedEventSize (formatSNSEvent ctx event topicName (some i) d rid))).1 =
        .ok (.inl we) ∧
      (handleEventSizeLimit (formatSNSEvent ctx event topicName (some i) d rid)
        (parsedEventSize (formatSNSEvent ctx event topicName (some i) d rid))).1.limitExceeded
        = true ∧
      we.Message.getProp "contentS3Location" =
        some (locatorJson
          (formatSNSEvent ctx event topicName (some i) d rid).extraProperties.contentS3Path
          (some info)) ∧
      (∀ k, k ≠ "contentS3Location" →
        we.Message.getProp k =
          if k ∈ event.payloadFixedProperties.getD [] ∧ (event.content.getProp k).isSome
          then event.content.getProp k else none) := by
  have hu2 : uploadContentS3Path env bucketList
      ((handleEventSizeLimit (formatSNSEvent ctx event topicName (some i) d rid)
        (parsedEventSize
          (formatSNSEvent ctx event topicName (some i) d rid))).1).extraProperties.contentS3Path =
      some info := by
    rw [marked_extraProperties]
    exact hu
  have hpfp : (formatSNSEvent ctx event topicName
      (some i) d rid).extraProperties.payloadFixedProperties =
      event.payloadFixedProperties := rfl
  have hmsg : (formatSNSEvent ctx event topicName (some i) d rid).Message =
      event.content := rfl
  refine ⟨_, formatAndUpload_ok env _ bucketList info hp hu2,
    marked_limitExceeded_gt _ _ hsz, ?_, ?_⟩
  · rw [formatBody_getProp, marked_extraProperties, hpfp, marked_Message, hmsg]
    rw [if_neg (fun hcc => hnc hcc.1), if_pos rfl]
  · intro k hk
    rw [formatBody_getProp, marked_extraProperties, hpfp, marked_Message, hmsg]
    by_cases hc : k ∈ event.payloadFixedProperties.getD [] ∧
        (event.content.getProp k).isSome
    · rw [if_pos hc, if_pos hc]
    · rw [if_neg hc, if_neg hc, if_neg hk]

/-- The collision event: an oversized content whose only fixed property is
literally named `contentS3Location`. -/
def evBigCollide : SNSEvent :=
  { content := .obj [("contentS3Location", .str (strN (256 * 1024)))],
    payloadFixedProperties := some ["contentS3Location"] }

/-- C2 counterexample: with an oversized event and a successful upload, a
fixed property named `contentS3Location` overwrites the locator in the
spread, so the outgoing body holds the original (huge string) value there
and no locator object at all — the claim as stated fails. -/
theorem claim_C2_counterexample :
    ∃ we,
      SNS_MESSAGE_LIMIT_SIZE <
        parsedEventSize (formatSNSEvent ctxD evBigCollide "MyTopic" (some 1) dateD "fake-id") ∧
      getParameterValue envEcho = .ok bucketsD ∧
      uploadContentS3Path envEcho bucketsD
        (formatSNSEvent ctxD evBigCollide "MyTopic"
          (some 1) dateD "fake-id").extraProperties.contentS3Path =
        some { bucketName := "sample-bucket-name-us-east-1", region := "us-east-1" } ∧
      formatAndUploadEventWithS3Content envEcho
        (handleEventSizeLimit (formatSNSEvent ctxD evBigCollide "MyTopic" (some 1) dateD "fake-id")
          (parsedEventSize
            (formatSNSEvent ctxD evBigCollide "MyTopic" (some 1) dateD "fake-id"))).1 =
        .ok (.inl we) ∧
      we.Message.getProp "contentS3Location" = some (Json.str (strN (256 * 1024))) ∧
      (∀ fs, we.Message.getProp "contentS3Location" ≠ some (Json.obj fs)) := by
  have hsz : SNS_MESSAGE_LIMIT_SIZE <
      parsedEventSize (formatSNSEvent ctxD evBigCollide "MyTopic" (some 1) dateD "fake-id") := by
    apply parsedEventSize_gt_of_field _
      [("contentS3Location", Json.str (strN (256 * 1024)))] "contentS3Location" (256 * 1024)
      rfl (List.mem_singleton_self _)
    decide
  have hp : getParameterValue envEcho = .ok bucketsD := rfl
  have hu : uploadContentS3Path envEcho bucketsD
      (formatSNSEvent ctxD evBigCollide "MyTopic"
        (some 1) dateD "fake-id").extraProperties.contentS3Path =
      some { bucketName := "sample-bucket-name-us-east-1", region := "us-east-1" } := rfl
  have hu2 : uploadContentS3Path envEcho bucketsD
      ((handleEventSizeLimit (formatSNSEvent ctxD evBigCollide "MyTopic" (some 1) dateD "fake-id")
        (parsedEventSize (formatSNSEvent ctxD evBigCollide "MyTopic"
          (some 1) dateD "fake-id"))).1).extraProperties.contentS3Path =
      some { bucketName := "sample-bucket-name-us-east-1", region := "us-east-1" } := by
    rw [marked_extraProperties]
    exact hu
  have hpfp : (formatSNSEvent ctxD evBigCollide "MyTopic"
      (some 1) dateD "fake-id").extraProperties.payloadFixedProperties =
      some ["contentS3Location"] := rfl
  have hmsg : (formatSNSEvent ctxD evBigCollide "MyTopic" (some 1) dateD "fake-id").Message =
      evBigCollide.content := rfl
  have hget : evBigCollide.content.getProp "contentS3Location" =
      some (Json.str (strN (256 * 1024))) := rfl
  refine ⟨_, hsz, hp, hu,
    formatAndUpload_ok envEcho _ bucketsD _ hp hu2, ?_, ?_⟩
  · rw [formatBody_getProp, marked_extraProperties, hpfp, marked_Message, hmsg]
    rw [if_pos ⟨List.mem_singleton_self _, by rw [hget]; rfl⟩]
    exact hget
  · intro fs
    rw [formatBody_getProp, marked_extraProperties, hpfp, marked_Message, hmsg]
    rw [if_pos ⟨List.mem_singleton_self _, by rw [hget]; rfl⟩]
    rw [hget]
    intro hcontra
    exact Json.noConfusion ((Option.some.injEq _ _).mp hcontra)


def envUpFail : Env :=
  { ramResources := .ok ["arn:aws:ssm:us-east-1:12345678:parameter/shared/internal-storage"],
    ssmValue := fun _ => .ok bucketsD,
    uploadOk := fun _ _ => false,
    transport := echoTransport }

def envUpSecond : Env :=
  { ramResources := .ok ["arn:aws:ssm:us-east-1:12345678:parameter/shared/internal-storage"],
    ssmValue := fun _ => .ok bucketsD,
    uploadOk := fun b _ => b.bucketName == "sample-bucket-name-us-west-1",
    transport := echoTransport }

/-- A formatted entry marked as exceeding the limit (the worker dispatches
on the marker, so the offload path is exercised directly). -/
def peBigW : ParsedEvent :=
  { formatSNSEvent ctxD evSmall "MyTopic" (some 2) dateD "fake-id" with limitExceeded := true }

/-- C4 (claim): for an oversize (marked) entry, (1) when the upload to the
first (default) destination fails and the second succeeds, the entry is
rewritten against the second destination's metadata, (2) when every
destination fails, the entry becomes the per-entry `S3_ERROR` failure, (3)
a successfully rewritten entry is included in its batch's publish call, and
(4) when every upload fails, each marked entry of the batch lands in the
outcome's failed list with the `S3_ERROR` code, no publish call carries
anything but the unmarked entries, and the unmarked entries of the batch
are still published.  The destination-fallback iteration
(`uploadContentS3Path`) is modelled from the spec, its current source not
being part of this snapshot. -/
theorem claim_C4 (env : Env) (pe : ParsedEvent) (b0 b1 : Bucket)
    (bucketList : List Bucket) :
    (getParameterValue env = .ok [b0, b1] →
     env.uploadOk b0 pe.extraProperties.contentS3Path = false →
     env.uploadOk b1 pe.extraProperties.contentS3Path = true →
     formatAndUploadEventWithS3Content env pe =
       .ok (.inl { wireOfParsed pe with
         Message := formatBodyWithContentS3Path pe
           pe.extraProperties.payloadFixedProperties
           pe.extraProperties.contentS3Path
           (some { bucketName := b1.bucketName, region := b1.region }) })) ∧
    (getParameterValue env = .ok bucketList →
     (∀ b ∈ bucketList, ∀ path, env.uploadOk b path = false) →
     formatAndUploadEventWithS3Content env pe = .ok (.inr (s3FailedEntry pe))) ∧
    (∀ batch we out calls,
      pe ∈ batch → pe.limitExceeded = true →
      formatAndUploadEventWithS3Content env pe = .ok (.inl we) →
      processBatch env batch = (.ok out, calls) →
      ∃ call ∈ calls, we ∈ call) ∧
    (∀ batch out calls,
      getParameterValue env = .ok bucketList →
      (∀ b ∈ bucketList, ∀ path, env.uploadOk b path = false) →
      processBatch env batch = (.ok out, calls) →
      (∀ q ∈ batch, q.limitExceeded = true → s3FailedEntry q ∈ out.Failed.getD []) ∧
      (∀ call ∈ calls, ∀ w ∈ call, ∃ q ∈ batch,
        q.limitExceeded = false ∧ w = wireOfParsed q) ∧
      (∀ q ∈ batch, q.limitExceeded = false → ∃ call ∈ calls, wireOfParsed q ∈ call)) := by
  refine ⟨?_, ?_, ?_, ?_⟩
  · intro hp h0 h1
    exact formatAndUpload_ok env pe [b0, b1] _ hp
      (uploadContentS3Path_second env b0 b1 _ h0 h1)
  · intro hp hfail
    exact formatAndUpload_allfail env pe bucketList hp
      (uploadContentS3Path_none env bucketList _ (fun b hb => hfail b hb _))
  · intro batch we out calls hpe hlim hfu hpb
    exact processBatch_uploaded_published env batch pe we out calls hpe hlim hfu hpb
  · intro batch out calls hp hfail hpb
    obtain ⟨hfailed, hcalls⟩ :=
      processBatch_allfail_facts env batch bucketList out calls hp hfail hpb
    refine ⟨hfailed, hcalls, ?_⟩
    intro q hq hql
    exact processBatch_small_published env batch q out calls hq hql hpb

set_option maxRecDepth 400000 in
/-- Witness for C4: the entry `peBigW` with the secondary-succeeds and the
all-fail environments, in a batch alongside the small entry `peW`. -/
theorem claim_C4_witness :
    formatAndUploadEventWithS3Content envUpSecond peBigW =
      .ok (.inl { wireOfParsed peBigW with
        Message := formatBodyWithContentS3Path peBigW
          peBigW.extraProperties.payloadFixedProperties
          peBigW.extraProperties.contentS3Path
          (some { bucketName := "sample-bucket-name-us-west-1", region := "us-west-1" }) }) ∧
    formatAndUploadEventWithS3Content envUpFail peBigW = .ok (.inr (s3FailedEntry peBigW)) ∧
    (∃ call ∈ (processBatch envUpSecond [peW, peBigW]).2,
      ({ wireOfParsed peBigW with
        Message := formatBodyWithContentS3Path peBigW
          peBigW.extraProperties.payloadFixedProperties
          peBigW.extraProperties.contentS3Path
          (some { bucketName := "sample-bucket-name-us-west-1",
                  region := "us-west-1" }) } : WireEntry) ∈ call) ∧
    (∃ out calls, processBatch envUpFail [peW, peBigW] = (.ok out, calls) ∧
      s3FailedEntry peBigW ∈ out.Failed.getD [] ∧
      ∃ call ∈ calls, wireOfParsed peW ∈ call) := by
  have hc4 := claim_C4 envUpSecond peBigW
    { bucketName := "sample-bucket-name-us-east-1", region := "us-east-1", isDefault := true }
    { bucketName := "sample-bucket-name-us-west-1", region := "us-west-1" } bucketsD
  have h1 := hc4.1 rfl rfl rfl
  have hc4f := claim_C4 envUpFail peBigW
    { bucketName := "sample-bucket-name-us-east-1", region := "us-east-1", isDefault := true }
    { bucketName := "sample-bucket-name-us-west-1", region := "us-west-1" } bucketsD
  have h2 := hc4f.2.1 rfl (fun b hb path => rfl)
  refine ⟨h1, h2, ?_, ?_⟩
  · cases hpb : processBatch envUpSecond [peW, peBigW] with
    | mk r calls =>
      cases r with
      | ok out =>
        exact hc4.2.2.1 [peW, peBigW] _ out calls
          (List.mem_cons_of_mem peW (List.mem_singleton_self peBigW)) rfl h1 hpb
      | error e =>
        have hok : (processBatch envUpSecond [peW, peBigW]).1.isOk = true := by decide
        rw [hpb] at hok
        simp [Except.isOk, Except.toBool] at hok
  · cases hpb : processBatch envUpFail [peW, peBigW] with
    | mk r calls =>
      cases r with
      | ok out =>
        obtain ⟨hfailed, _, hsmall⟩ :=
          hc4f.2.2.2 [peW, peBigW] out calls rfl (fun b hb path => rfl) hpb
        exact ⟨out, calls, rfl,
          hfailed peBigW (List.mem_cons_of_mem peW (List.mem_singleton_self peBigW)) rfl,
          hsmall peW (List.mem_cons_self peW [peBigW]) rfl⟩
      | error e =>
        have hok : (processBatch envUpFail [peW, peBigW]).1.isOk = true := by decide
        rw [hpb] at hok
        simp [Except.isOk, Except.toBool] at hok


/-- An event whose content keeps a 256 KiB field even after offload, because
the field is listed in `payloadFixedProperties`. -/
def evBigPfp : SNSEvent :=
  { content := .obj [("big", .str (strN (256 * 1024)))],
    payloadFixedProperties := some ["big"] }

theorem evBigPfp_sz (i : Nat) :
    SNS_MESSAGE_LIMIT_SIZE <
      parsedEventSize (formatSNSEvent ctxD evBigPfp "MyTopic" (some i) dateD "fake-id") := by
  apply parsedEventSize_gt_of_field _ [("big", Json.str (strN (256 * 1024)))] "big"
    (256 * 1024) rfl (List.mem_singleton_self _)
  decide

theorem evBigPfp_body (i : Nat) :
    formatBodyWithContentS3Path
      (formatSNSEvent ctxD evBigPfp "MyTopic" (some i) dateD "fake-id")
      (formatSNSEvent ctxD evBigPfp "MyTopic" (some i) dateD
        "fake-id").extraProperties.payloadFixedProperties
      (formatSNSEvent ctxD evBigPfp "MyTopic" (some i) dateD
        "fake-id").extraProperties.contentS3Path none =
    Json.obj [("contentS3Location",
        Json.obj [("path", Json.str (formatSNSEvent ctxD evBigPfp "MyTopic" (some i) dateD
          "fake-id").extraProperties.contentS3Path)]),
      ("big", Json.str (strN (256 * 1024)))] := rfl

theorem evBigPfp_mf2 (i : Nat) :
    SNS_MESSAGE_LIMIT_SIZE < (markedFormat ctxD "MyTopic" genD i evBigPfp).2 := by
  have hsz := evBigPfp_sz i
  have hm : (markedFormat ctxD "MyTopic" genD i evBigPfp).2 =
      (formatBodyWithContentS3Path
        (formatSNSEvent ctxD evBigPfp "MyTopic" (some i) dateD "fake-id")
        (formatSNSEvent ctxD evBigPfp "MyTopic" (some i) dateD
          "fake-id").extraProperties.payloadFixedProperties
        (formatSNSEvent ctxD evBigPfp "MyTopic" (some i) dateD
          "fake-id").extraProperties.contentS3Path none).stringify.length + 90 := by
    show (handleEventSizeLimit
      (formatSNSEvent ctxD evBigPfp "MyTopic" (some i) dateD "fake-id")
      (parsedEventSize (formatSNSEvent ctxD evBigPfp "MyTopic" (some i) dateD "fake-id"))).2 = _
    rw [handleEventSizeLimit_gt _ _ hsz]
  rw [hm, evBigPfp_body]
  have hge := stringify_obj_ge
    [("contentS3Location",
        Json.obj [("path", Json.str (formatSNSEvent ctxD evBigPfp "MyTopic" (some i) dateD
          "fake-id").extraProperties.contentS3Path)]),
      ("big", Json.str (strN (256 * 1024)))]
    ("big", Json.str (strN (256 * 1024)))
    (List.mem_cons_of_mem _ (List.mem_singleton_self _))
  rw [strN_stringify_length] at hge
  have hL : SNS_MESSAGE_LIMIT_SIZE = 256 * 1024 := rfl
  omega

theorem evBigPfp_marked (i : Nat) :
    ((markedFormat ctxD "MyTopic" genD i evBigPfp).1).limitExceeded = true := by
  show ((handleEventSizeLimit
    (formatSNSEvent ctxD evBigPfp "MyTopic" (some i) dateD "fake-id")
    (parsedEventSize (formatSNSEvent ctxD evBigPfp "MyTopic" (some i) dateD
      "fake-id"))).1).limitExceeded = true
  exact marked_limitExceeded_gt _ _ (evBigPfp_sz i)

theorem parseEventsStep_big (ctx : Ctx) (tn : String) (gen : Nat → DateYMD × String)
    (d : List (List ParsedEvent)) (c : List ParsedEvent) (n : Nat) (i : Nat) (ev : SNSEvent)
    (h : SNS_MESSAGE_LIMIT_SIZE < n + (markedFormat ctx tn gen i ev).2) :
    parseEventsStep ctx tn gen { done := d, cur := c, curSize := n } (i, ev) =
      { done := d ++ [c], cur := [(markedFormat ctx tn gen i ev).1],
        curSize := (markedFormat ctx tn gen i ev).2 } := by
  simp only [parseEventsStep]
  rw [if_pos (Or.inl h)]

theorem parseEventsStep_fits (ctx : Ctx) (tn : String) (gen : Nat → DateYMD × String)
    (d : List (List ParsedEvent)) (c : List ParsedEvent) (n : Nat) (i : Nat) (ev : SNSEvent)
    (hsz : ¬ n + (markedFormat ctx tn gen i ev).2 > SNS_MESSAGE_LIMIT_SIZE)
    (hlen : ¬ c.length = SNS_MAX_BATCH_SIZE) :
    parseEventsStep ctx tn gen { done := d, cur := c, curSize := n } (i, ev) =
      { done := d, cur := c ++ [(markedFormat ctx tn gen i ev).1],
        curSize := n + (markedFormat ctx tn gen i ev).2 } := by
  simp only [parseEventsStep]
  rw [if_neg (not_or.mpr ⟨hsz, hlen⟩)]

theorem parseEventsOnTopic_single_big (ctx : Ctx) (tn : String)
    (gen : Nat → DateYMD × String) (ev : SNSEvent)
    (h : SNS_MESSAGE_LIMIT_SIZE < (markedFormat ctx tn gen 1 ev).2) :
    parseEventsOnTopic ctx [ev] tn gen = [[], [(markedFormat ctx tn gen 1 ev).1]] := by
  simp only [parseEventsOnTopic, enumFrom, List.foldl]
  rw [parseEventsStep_big ctx tn gen [] [] 0 1 ev (by omega)]
  rfl

theorem parseEventsOnTopic_small_big (ctx : Ctx) (tn : String)
    (gen : Nat → DateYMD × String) (e1 e2 : SNSEvent)
    (h1 : (markedFormat ctx tn gen 1 e1).2 ≤ SNS_MESSAGE_LIMIT_SIZE)
    (h2 : SNS_MESSAGE_LIMIT_SIZE < (markedFormat ctx tn gen 2 e2).2) :
    parseEventsOnTopic ctx [e1, e2] tn gen =
      [[(markedFormat ctx tn gen 1 e1).1], [(markedFormat ctx tn gen 2 e2).1]] := by
  simp only [parseEventsOnTopic, enumFrom, List.foldl]
  rw [parseEventsStep_fits ctx tn gen [] [] 0 1 e1 (by omega) (by decide)]
  simp only [List.nil_append, Nat.zero_add]
  rw [parseEventsStep_big ctx tn gen [] [(markedFormat ctx tn gen 1 e1).1]
    (markedFormat ctx tn gen 1 e1).2 2 e2 (by omega)]
  rfl

theorem topicNameD : getTopicNameFromArn arnD = .ok "MyTopic" := rfl

set_option maxRecDepth 100000 in
theorem parseEvents_single_big :
    parseEvents ctxD [evBigPfp] arnD genD =
      .ok [[], [(markedFormat ctxD "MyTopic" genD 1 evBigPfp).1]] := by
  unfold parseEvents
  rw [topicNameD, except_bind_ok,
    parseEventsOnTopic_single_big ctxD "MyTopic" genD evBigPfp (evBigPfp_mf2 1)]
  rfl

set_option maxRecDepth 1000000 in
theorem evSmall_fits :
    (markedFormat ctxD "MyTopic" genD 1 evSmall).2 ≤ SNS_MESSAGE_LIMIT_SIZE := by
  decide

set_option maxRecDepth 1000000 in
theorem parseEvents_small_big :
    parseEvents ctxD [evSmall, evBigPfp] arnD genD =
      .ok [[peW], [(markedFormat ctxD "MyTopic" genD 2 evBigPfp).1]] := by
  unfold parseEvents
  rw [topicNameD, except_bind_ok,
    parseEventsOnTopic_small_big ctxD "MyTopic" genD evSmall evBigPfp evSmall_fits
      (evBigPfp_mf2 2)]
  rfl

theorem parseEventsOnTopic_single_fits (ctx : Ctx) (tn : String)
    (gen : Nat → DateYMD × String) (ev : SNSEvent)
    (h : (markedFormat ctx tn gen 1 ev).2 ≤ SNS_MESSAGE_LIMIT_SIZE) :
    parseEventsOnTopic ctx [ev] tn gen = [[(markedFormat ctx tn gen 1 ev).1]] := by
  simp only [parseEventsOnTopic, enumFrom, List.foldl]
  rw [parseEventsStep_fits ctx tn gen [] [] 0 1 ev (by omega) (by decide)]
  rfl

set_option maxRecDepth 1000000 in
theorem parseEvents_single_small :
    parseEvents ctxD [evSmall] arnD genD = .ok [[peW]] := by
  unfold parseEvents
  rw [topicNameD, except_bind_ok,
    parseEventsOnTopic_single_fits ctxD "MyTopic" genD evSmall evSmall_fits]
  rfl


/-- C1 (amended): on a resolvable topic ARN, the partitioner returns batches
of at most 10 entries; each batch's estimated total size is within the
256 KiB ceiling unless it is a singleton whose single entry's estimate
alone exceeds the ceiling (possible when `payloadFixedProperties` keeps a
huge field in the post-offload body, see the counterexample); and the
concatenation of the batches in order is exactly the formatted input
sequence in input order — nothing reordered or dropped. -/
theorem claim_C1 (ctx : Ctx) (events : List SNSEvent) (topicArn : String)
    (gen : Nat → DateYMD × String) (batches : List (List ParsedEvent))
    (h : parseEvents ctx events topicArn gen = .ok batches) :
    (∀ b ∈ batches, b.length ≤ SNS_MAX_BATCH_SIZE ∧
      (batchEstSize b ≤ SNS_MESSAGE_LIMIT_SIZE ∨
        ∃ pe, b = [pe] ∧ SNS_MESSAGE_LIMIT_SIZE < estSize pe)) ∧
    ∃ topicName, getTopicNameFromArn topicArn = .ok topicName ∧
      batches.join = (enumFrom 1 events).map
        (fun ie => (markedFormat ctx topicName gen ie.1 ie.2).1) := by
  unfold parseEvents at h
  cases htn : getTopicNameFromArn topicArn with
  | error e =>
    rw [htn, except_bind_error] at h
    exact absurd h (by simp)
  | ok tn =>
    rw [htn, except_bind_ok] at h
    have hb : parseEventsOnTopic ctx events tn gen = batches := by
      have h' : Except.ok (parseEventsOnTopic ctx events tn gen) =
          (Except.ok batches : Except SnsTriggerError _) := h
      exact Except.ok.inj h'
    subst hb
    exact ⟨fun b hbm => parseEventsOnTopic_good ctx events tn gen b hbm,
      tn, rfl, parseEventsOnTopic_join ctx events tn gen⟩

/-- Witness for C1: a single small event on the default ARN. -/
theorem claim_C1_witness :
    (∀ b ∈ [[peW]], b.length ≤ SNS_MAX_BATCH_SIZE ∧
      (batchEstSize b ≤ SNS_MESSAGE_LIMIT_SIZE ∨
        ∃ pe, b = [pe] ∧ SNS_MESSAGE_LIMIT_SIZE < estSize pe)) ∧
    ∃ topicName, getTopicNameFromArn arnD = .ok topicName ∧
      ([[peW]] : List (List ParsedEvent)).join =
        (enumFrom 1 [evSmall]).map
          (fun ie => (markedFormat ctxD topicName genD ie.1 ie.2).1) :=
  claim_C1 ctxD [evSmall] arnD genD [[peW]] parseEvents_single_small

theorem batchEstSize_single (x : ParsedEvent) : batchEstSize [x] = estSize x := by
  unfold batchEstSize
  rw [List.map_cons, List.map_nil, List.sum_cons, List.sum_nil, Nat.add_zero]

/-- C1 counterexample: the event `evBigPfp` keeps a 256 KiB field after
offloading, so its singleton batch's estimated size exceeds the ceiling —
the claimed unconditional 256 KiB bound on every batch fails (the entry is
still not split or dropped). -/
theorem claim_C1_counterexample :
    ∃ batches, parseEvents ctxD [evBigPfp] arnD genD = .ok batches ∧
      ∃ b ∈ batches, SNS_MESSAGE_LIMIT_SIZE < batchEstSize b := by
  refine ⟨_, parseEvents_single_big, [(markedFormat ctxD "MyTopic" genD 1 evBigPfp).1],
    List.mem_cons_of_mem _ (List.mem_singleton_self _), ?_⟩
  rw [batchEstSize_single, estSize_markedFormat]
  exact evBigPfp_mf2 1

theorem getParameterArnFromRAM_error_code (env : Env) (e : SnsTriggerError)
    (h : getParameterArnFromRAM env = .error e) : e.code = codeRAM_ERROR := by
  unfold getParameterArnFromRAM at h
  cases hr : env.ramResources with
  | error msg =>
    rw [hr] at h
    dsimp only at h
    rw [← Except.error.inj h]
  | ok resources =>
    rw [hr] at h
    dsimp only at h
    cases hf : resources.filter (fun arn => listInfixOf parameterName.data arn.data) with
    | nil =>
      rw [hf] at h
      dsimp only at h
      rw [← Except.error.inj h]
    | cons a rest =>
      rw [hf] at h
      exact absurd h (by simp)

theorem getParameterValue_error_code (env : Env) (e : SnsTriggerError)
    (h : getParameterValue env = .error e) :
    e.code = codeRAM_ERROR ∨ e.code = codeSSM_ERROR := by
  unfold getParameterValue at h
  cases hr : getParameterArnFromRAM env with
  | error e0 =>
    rw [hr, except_bind_error] at h
    have he : e0 = e := Except.error.inj h
    exact .inl (he ▸ getParameterArnFromRAM_error_code env e0 hr)
  | ok arn =>
    rw [hr, except_bind_ok] at h
    cases hs : env.ssmValue arn with
    | error msg =>
      rw [hs] at h
      dsimp only at h
      right
      rw [← Except.error.inj h]
    | ok v =>
      rw [hs] at h
      exact absurd h (by simp [pure, Except.pure])

theorem processAll_cons_ok (env : Env) (b : List ParsedEvent)
    (bs : List (List ParsedEvent)) (out : SnsOutcome) (calls : List (List WireEntry))
    (h : processBatch env b = (.ok out, calls)) (e : SnsTriggerError)
    (more : List (List WireEntry)) (h2 : processAll env bs = (.error e, more)) :
    processAll env (b :: bs) = (.error e, calls ++ more) := by
  unfold processAll
  rw [h, h2]

theorem processAll_two_err (env : Env) (b1 : List ParsedEvent) (mf : ParsedEvent)
    (out : SnsOutcome) (calls : List (List WireEntry)) (e : SnsTriggerError)
    (h1 : processBatch env b1 = (.ok out, calls))
    (hlookup : getParameterValue env = .error e)
    (hm : mf.limitExceeded = true) :
    processAll env [b1, [mf]] = (.error e, calls ++ []) :=
  processAll_cons_ok env b1 [[mf]] out calls h1 e [] (by
    unfold processAll
    rw [processBatch_lookup_error env _ e hlookup _ (List.mem_singleton_self _) hm])

theorem publishEvents_err (ctx : Ctx) (env : Env) (topicArn : String)
    (events : List SNSEvent) (gen : Nat → DateYMD × String)
    (batches : List (List ParsedEvent)) (e : SnsTriggerError)
    (more : List (List WireEntry))
    (hpe : parseEvents ctx events topicArn gen = .ok batches)
    (hall : processAll env batches = (.error e, more)) :
    publishEvents ctx env topicArn events gen = (.error e, more) := by
  unfold publishEvents
  rw [hpe]
  dsimp only
  rw [hall]

def envRamFail : Env :=
  { ramResources := .error "RAM list failure",
    ssmValue := fun _ => .ok bucketsD,
    uploadOk := fun _ _ => true,
    transport := echoTransport }

def ramErrD : SnsTriggerError :=
  { message := "Resource Access Manager Error: " ++ "RAM list failure",
    code := codeRAM_ERROR }

/-- C5 (amended): when the destination-list lookup fails, `publishEvents`
rejects with that same systemic error (its code is `RAM_ERROR` or
`SSM_ERROR`), and every batch containing an offload-marked entry is rejected
without issuing its publish call.  Publish calls of batches dispatched
earlier that contain no marked entry do still happen before the rejection
(see the counterexample); the lookup only runs on behalf of marked entries.
The bounded-concurrency dispatcher is modelled from the spec as in-order
sequential execution, its current source not being part of this snapshot. -/
theorem claim_C5 (ctx : Ctx) (env : Env) (topicArn : String) (events : List SNSEvent)
    (gen : Nat → DateYMD × String) (e : SnsTriggerError)
    (batches : List (List ParsedEvent))
    (hpe : parseEvents ctx events topicArn gen = .ok batches)
    (hlookup : getParameterValue env = .error e)
    (hbig : ∃ b ∈ batches, ∃ q ∈ b, q.limitExceeded = true) :
    (publishEvents ctx env topicArn events gen).1 = .error e ∧
    (e.code = codeRAM_ERROR ∨ e.code = codeSSM_ERROR) ∧
    ∀ b ∈ batches, (∃ q ∈ b, q.limitExceeded = true) →
      processBatch env b = (.error e, []) := by
  refine ⟨?_, getParameterValue_error_code env e hlookup, ?_⟩
  · unfold publishEvents
    rw [hpe]
    dsimp only
    have hall := processAll_lookup_error env batches e hlookup hbig
    cases hpa : processAll env batches with
    | mk r calls =>
      rw [hpa] at hall
      have hr : r = .error e := hall
      subst hr
      rfl
  · intro b hb hex
    obtain ⟨q, hq, hql⟩ := hex
    exact processBatch_lookup_error env b e hlookup q hq hql

set_option maxRecDepth 100000 in
/-- Witness for C5: the oversized event `evBigPfp` with a failing resource
listing — the operation rejects with the `RAM_ERROR` and the marked batch
issues no publish call. -/
theorem claim_C5_witness :
    (publishEvents ctxD envRamFail arnD [evBigPfp] genD).1 = .error ramErrD ∧
    (ramErrD.code = codeRAM_ERROR ∨ ramErrD.code = codeSSM_ERROR) ∧
    ∀ b ∈ [([] : List ParsedEvent), [(markedFormat ctxD "MyTopic" genD 1 evBigPfp).1]],
      (∃ q ∈ b, q.limitExceeded = true) →
      processBatch envRamFail b = (.error ramErrD, []) :=
  claim_C5 ctxD envRamFail arnD [evBigPfp] genD ramErrD
    [[], [(markedFormat ctxD "MyTopic" genD 1 evBigPfp).1]]
    parseEvents_single_big rfl
    ⟨[(markedFormat ctxD "MyTopic" genD 1 evBigPfp).1],
      List.mem_cons_of_mem _ (List.mem_singleton_self _),
      (markedFormat ctxD "MyTopic" genD 1 evBigPfp).1,
      List.mem_singleton_self _, evBigPfp_marked 1⟩

set_option maxRecDepth 1000000 in
/-- C5 counterexample: with a small event followed by `evBigPfp` and a
failing resource listing, the operation does reject with the `RAM_ERROR`,
but the publish call of the first (clean) batch was already issued — the
claimed "before any publish call is attempted" fails. -/
theorem claim_C5_counterexample :
    getParameterValue envRamFail = .error ramErrD ∧
    (publishEvents ctxD envRamFail arnD [evSmall, evBigPfp] genD).1 = .error ramErrD ∧
    ∃ call ∈ (publishEvents ctxD envRamFail arnD [evSmall, evBigPfp] genD).2,
      wireOfParsed peW ∈ call := by
  obtain ⟨out1, calls1, hpb1⟩ := processBatch_ok_of_no_bigs envRamFail [peW] (by
    intro pe hpe
    rcases List.mem_singleton.mp hpe with rfl
    rfl)
  have hpub := processBatch_small_published envRamFail [peW] peW out1 calls1
    (List.mem_singleton_self _) rfl hpb1
  have hall := processAll_two_err envRamFail [peW]
    (markedFormat ctxD "MyTopic" genD 2 evBigPfp).1 out1 calls1 ramErrD hpb1 rfl
    (evBigPfp_marked 2)
  have hpub2 := publishEvents_err ctxD envRamFail arnD [evSmall, evBigPfp] genD
    [[peW], [(markedFormat ctxD "MyTopic" genD 2 evBigPfp).1]] ramErrD (calls1 ++ [])
    parseEvents_small_big hall
  refine ⟨rfl, ?_, ?_⟩
  · rw [hpub2]
  · rw [hpub2]
    obtain ⟨call, hc, hm2⟩ := hpub
    refine ⟨call, ?_, hm2⟩
    show call ∈ calls1 ++ []
    rw [List.append_nil]
    exact hc

/-- Witness for C2: the oversized event `evBigPfp` (fixed property `big`,
no collision) against the always-succeeding environment, offloaded to the
default destination. -/
theorem claim_C2_witness :
    ∃ we, formatAndUploadEventWithS3Content envEcho
        (handleEventSizeLimit (formatSNSEvent ctxD evBigPfp "MyTopic" (some 1) dateD "fake-id")
          (parsedEventSize
            (formatSNSEvent ctxD evBigPfp "MyTopic" (some 1) dateD "fake-id"))).1 =
        .ok (.inl we) ∧
      (handleEventSizeLimit (formatSNSEvent ctxD evBigPfp "MyTopic" (some 1) dateD "fake-id")
        (parsedEventSize
          (formatSNSEvent ctxD evBigPfp "MyTopic" (some 1) dateD
            "fake-id"))).1.limitExceeded = true ∧
      we.Message.getProp "contentS3Location" =
        some (locatorJson
          (formatSNSEvent ctxD evBigPfp "MyTopic" (some 1) dateD
            "fake-id").extraProperties.contentS3Path
          (some { bucketName := "sample-bucket-name-us-east-1", region := "us-east-1" })) ∧
      (∀ k, k ≠ "contentS3Location" →
        we.Message.getProp k =
          if k ∈ evBigPfp.payloadFixedProperties.getD [] ∧ (evBigPfp.content.getProp k).isSome
          then evBigPfp.content.getProp k else none) :=
  claim_C2 ctxD evBigPfp "MyTopic" 1 dateD "fake-id" envEcho bucketsD
    { bucketName := "sample-bucket-name-us-east-1", region := "us-east-1" }
    (evBigPfp_sz 1) rfl rfl (by decide)

end Sns
